import Mathlib

/-!
# Verification of the PowerBB core (powerbb_v1.py)

This file gives a shallow embedding, in Lean 4, of the core string-processing,
template-profiling, layout-resolution and content-rendering functions of
`powerbb_v1.py`, and proves or refutes the frozen specification claims about
them.

Conventions used throughout:

* Python strings are modelled as `List Char` (with `String` wrappers where
  convenient); Python regex-based rewrites are modelled as explicit
  left-to-right scanners that implement the same leftmost, non-overlapping
  match semantics as `re.sub`.
* Python `dict` values are modelled as association lists.
* Python exceptions are modelled with `Except String`.
* The python-pptx document object model is an external collaborator; its
  state that the core reads and writes (paragraphs, runs, bodyPr autofit
  children, `auto_size`, `word_wrap`) is modelled as explicit records, and
  its `fit_text` best-fit primitive is modelled by the best-fit search the
  specification describes, parameterised by an abstract "does this font size
  fit" oracle that depends only on data `fit_text` measures (text, box
  geometry, font family), not on current run sizes.
-/

namespace PowerBB

/-! ## Basic Python string helpers -/

/-- Whitespace as recognised by Python `str.split()` / `str.strip()` in the
ASCII range: space, tab, newline, carriage return, vertical tab, form feed. -/
def pyIsSpace (c : Char) : Bool :=
  c = ' ' || c = '\t' || c = '\n' || c = '\r' || c = '\x0b' || c = '\x0c'

/-- Python `s.strip()` on a character list. -/
def pyStrip (cs : List Char) : List Char :=
  ((cs.dropWhile pyIsSpace).reverse.dropWhile pyIsSpace).reverse

/-- Python `s.split()` (no separator): whitespace-delimited words.  The
accumulator keeps the recursion structural.  `acc` holds the current word,
reversed. -/
def wordsAux : List Char → List Char → List (List Char)
  | [], acc => if acc = [] then [] else [acc.reverse]
  | c :: rest, acc =>
    if pyIsSpace c then
      (if acc = [] then wordsAux rest [] else acc.reverse :: wordsAux rest [])
    else wordsAux rest (c :: acc)

/-- Python `s.split()` on a character list. -/
def wordsPy (cs : List Char) : List (List Char) :=
  wordsAux cs []

/-- Python `" ".join(words)`. -/
def joinWords : List (List Char) → List Char
  | [] => []
  | [w] => w
  | w :: ws => w ++ ' ' :: joinWords ws

/-- Python `" ".join(s.split())`: collapse whitespace runs to single spaces and
strip the ends.  Used by the layout resolver to normalise layout names. -/
def normSpace (s : String) : String :=
  String.mk (joinWords (wordsPy s.toList))

/-- Association-list lookup, modelling Python `dict` key lookup. -/
def assocLookup (tbl : List (String × String)) (k : String) : Option String :=
  match tbl with
  | [] => none
  | (k', v) :: rest => if k' = k then some v else assocLookup rest k

/-! ## Variable substitution (`_expand_vars`, powerbb_v1.py lines 190-198)

The source substitutes with `re.sub` on the pattern
`\x7b\x7b([a-zA-Z0-9_\-]+)\x7d\x7d`, replacing a matched token by
`variables.get(name, whole_match)`: a missing name leaves the token verbatim.
`re.sub` scans left to right; after a failed match attempt it advances one
character, and after a successful match it resumes after the match without
rescanning the replacement text. -/

theorem dropWhile_length_le {α : Type} (p : α → Bool) :
    ∀ (l : List α), (l.dropWhile p).length ≤ l.length
  | [] => Nat.le_refl _
  | a :: l => by
    rw [List.dropWhile]
    cases p a
    · simp
    · simpa using Nat.le_succ_of_le (dropWhile_length_le p l)

/-- A character allowed in a `\x7b\x7bname\x7d\x7d` token: `[a-zA-Z0-9_-]`. -/
def isNameChar (c : Char) : Bool :=
  c = '_' || c = '-' || c.isDigit || c.isLower || c.isUpper

/-- The scanner underlying `_expand_vars`, on character lists. -/
def expandChars (vtab : List (String × String)) : List Char → List Char
  | [] => []
  | '{' :: '{' :: rest =>
    match hdw : rest.dropWhile isNameChar with
    | '}' :: '}' :: rest2 =>
      if rest.takeWhile isNameChar = [] then
        -- no name characters after the braces: no match here, advance one char
        '{' :: expandChars vtab ('{' :: rest)
      else
        (match assocLookup vtab (String.mk (rest.takeWhile isNameChar)) with
         | some v => v.toList
         | none => '{' :: '{' :: (rest.takeWhile isNameChar ++ ['}', '}'])) ++
        expandChars vtab rest2
    | _ => '{' :: expandChars vtab ('{' :: rest)
  | c :: rest => c :: expandChars vtab rest
termination_by cs => cs.length
decreasing_by
  · simp only [List.length_cons]; omega
  · have h1 : (rest.dropWhile isNameChar).length ≤ rest.length :=
      dropWhile_length_le isNameChar rest
    rw [hdw] at h1
    simp only [List.length_cons] at h1 ⊢
    omega
  · simp only [List.length_cons]; omega
  · simp only [List.length_cons]; omega

/-- Embedding of `_expand_vars`. -/
def expandVars (s : String) (vtab : List (String × String)) : String :=
  String.mk (expandChars vtab s.toList)

theorem takeWhile_all_append {p : Char → Bool} :
    ∀ {l1 : List Char} {l2 : List Char}, (∀ c ∈ l1, p c = true) →
      (∀ hd, l2.head? = some hd → p hd = false) →
      (l1 ++ l2).takeWhile p = l1 ∧ (l1 ++ l2).dropWhile p = l2
  | [], l2, _, h2 => by
    cases l2 with
    | nil => simp
    | cons hd tl =>
      have := h2 hd rfl
      simp [List.takeWhile_cons, List.dropWhile_cons, this]
  | c :: l1, l2, h1, h2 => by
    have hc : p c = true := h1 c (List.mem_cons_self c l1)
    have ih := takeWhile_all_append (fun d hd => h1 d (List.mem_cons_of_mem c hd)) h2
    simp [List.takeWhile_cons, List.dropWhile_cons, hc, ih.1, ih.2]

@[simp] theorem expandChars_nil (vtab : List (String × String)) :
    expandChars vtab [] = [] := by
  rw [expandChars]

theorem expandChars_cons_ne (vtab : List (String × String)) (c : Char) (cs : List Char)
    (h : c ≠ '{') : expandChars vtab (c :: cs) = c :: expandChars vtab cs := by
  rw [expandChars.eq_def]
  split
  · next heq => exact absurd heq (List.cons_ne_nil c cs)
  · next rest heq =>
    injection heq with hc _
    exact absurd hc h
  · next c2 rest heq =>
    injection heq with hc hcs
    rw [hc, hcs]

/-- The replacement `re.sub` produces for one matched token. -/
def tokenRepl (vtab : List (String × String)) (nm : List Char) : List Char :=
  match assocLookup vtab (String.mk nm) with
  | some v => v.toList
  | none => '{' :: '{' :: (nm ++ ['}', '}'])

theorem expandChars_token (vtab : List (String × String)) (nm rest : List Char)
    (h1 : nm ≠ []) (h2 : ∀ c ∈ nm, isNameChar c = true) :
    expandChars vtab ('{' :: '{' :: (nm ++ '}' :: '}' :: rest)) =
      tokenRepl vtab nm ++ expandChars vtab rest := by
  have hbrace : isNameChar '}' = false := by decide
  have hspan := @takeWhile_all_append isNameChar nm ('}' :: '}' :: rest) h2
    (fun hd hhd => by simp at hhd; rw [← hhd]; exact hbrace)
  rw [expandChars.eq_def]
  simp only [hspan.1, hspan.2, h1, tokenRepl]
  split
  · next rest2 heq =>
    rw [hspan.2] at heq
    injection heq with _ heq2
    injection heq2 with _ heq3
    rw [heq3]
    simp
  · next hno => exact absurd (hno rest hspan.2) (by simp)

/-! ### Template pieces

To reason about `_expand_vars` we decompose input strings into pieces: a
brace-free literal, or a well-formed `\x7b\x7bname\x7d\x7d` token.  This is
exactly the class of strings on which the single-pass `re.sub` semantics is
compositional. -/

/-- A piece of a template string: a literal or a variable token. -/
inductive TmplPiece where
  | lit (s : List Char)
  | tok (nm : List Char)
deriving DecidableEq

/-- Well-formedness: literals are brace-free, token names are nonempty and
consist of name characters. -/
def pieceWF : TmplPiece → Prop
  | .lit s => ∀ c ∈ s, c ≠ '{' ∧ c ≠ '}'
  | .tok nm => nm ≠ [] ∧ ∀ c ∈ nm, isNameChar c = true

instance : DecidablePred pieceWF := by
  intro p
  cases p <;> simp [pieceWF] <;> infer_instance

/-- Reassemble a piece list into the template string it stands for. -/
def assemble : List TmplPiece → List Char
  | [] => []
  | .lit s :: ps => s ++ assemble ps
  | .tok nm :: ps => '{' :: '{' :: (nm ++ '}' :: '}' :: assemble ps)

/-- What one pass of `_expand_vars` produces for one piece. -/
def renderPiece (vtab : List (String × String)) : TmplPiece → List Char
  | .lit s => s
  | .tok nm => tokenRepl vtab nm

/-- What one pass of `_expand_vars` produces for a piece list. -/
def renderAll (vtab : List (String × String)) : List TmplPiece → List Char
  | [] => []
  | p :: ps => renderPiece vtab p ++ renderAll vtab ps

/-- The piece a piece becomes after one expansion pass: a resolved token turns
into its (literal) value, everything else is unchanged. -/
def renderedPiece (vtab : List (String × String)) : TmplPiece → TmplPiece
  | .lit s => .lit s
  | .tok nm =>
    match assocLookup vtab (String.mk nm) with
    | some v => .lit v.toList
    | none => .tok nm

theorem expandChars_passthrough (vtab : List (String × String)) :
    ∀ (u w : List Char), (∀ c ∈ u, c ≠ '{') →
      expandChars vtab (u ++ w) = u ++ expandChars vtab w
  | [], w, _ => by simp
  | c :: u, w, h => by
    have hc : c ≠ '{' := h c (List.mem_cons_self c u)
    rw [List.cons_append, expandChars_cons_ne vtab c _ hc,
      expandChars_passthrough vtab u w (fun d hd => h d (List.mem_cons_of_mem c hd))]
    rfl

theorem expandChars_bracefree (vtab : List (String × String)) (u : List Char)
    (h : ∀ c ∈ u, c ≠ '{') : expandChars vtab u = u := by
  have := expandChars_passthrough vtab u [] h
  simpa using this

theorem expandChars_assemble (vtab : List (String × String)) :
    ∀ (ps : List TmplPiece), (∀ p ∈ ps, pieceWF p) →
      expandChars vtab (assemble ps) = renderAll vtab ps
  | [], _ => by simp [assemble, renderAll]
  | .lit s :: ps, h => by
    have hs := h _ (List.mem_cons_self _ ps)
    simp only [pieceWF] at hs
    rw [assemble, renderAll,
      expandChars_passthrough vtab s _ (fun c hc => (hs c hc).1),
      expandChars_assemble vtab ps (fun p hp => h p (List.mem_cons_of_mem _ hp))]
    rfl
  | .tok nm :: ps, h => by
    have hn := h _ (List.mem_cons_self _ ps)
    simp only [pieceWF] at hn
    rw [assemble, renderAll, expandChars_token vtab nm _ hn.1 hn.2,
      expandChars_assemble vtab ps (fun p hp => h p (List.mem_cons_of_mem _ hp))]
    rfl

theorem assocLookup_mem (tbl : List (String × String)) (k : String) (v : String)
    (h : assocLookup tbl k = some v) : ∃ k', (k', v) ∈ tbl := by
  induction tbl with
  | nil => simp [assocLookup] at h
  | cons kv rest ih =>
    rw [assocLookup] at h
    split at h
    · exact ⟨kv.1, by cases h; exact (List.mem_cons_self _ _)⟩
    · obtain ⟨k', hk'⟩ := ih h
      exact ⟨k', List.mem_cons_of_mem _ hk'⟩

theorem renderAll_eq_assemble_rendered (vtab : List (String × String)) :
    ∀ (ps : List TmplPiece),
      renderAll vtab ps = assemble (ps.map (renderedPiece vtab))
  | [] => by simp [renderAll, assemble]
  | .lit s :: ps => by
    rw [renderAll, List.map_cons, renderedPiece, assemble, renderPiece,
      renderAll_eq_assemble_rendered vtab ps]
  | .tok nm :: ps => by
    rw [renderAll, List.map_cons, renderedPiece, renderPiece, tokenRepl]
    split
    · next v hv => rw [assemble, renderAll_eq_assemble_rendered vtab ps]
    · next hv => rw [assemble, renderAll_eq_assemble_rendered vtab ps]; simp

theorem renderedPiece_WF (vtab : List (String × String))
    (hv : ∀ kv ∈ vtab, ∀ c ∈ (kv.2 : String).toList, c ≠ '{' ∧ c ≠ '}')
    (p : TmplPiece) (hp : pieceWF p) : pieceWF (renderedPiece vtab p) := by
  cases p with
  | lit s => exact hp
  | tok nm =>
    rw [renderedPiece]
    split
    · next v hlk =>
      obtain ⟨k', hk'⟩ := assocLookup_mem _ _ _ hlk
      exact fun c hc => hv (k', v) hk' c hc
    · exact hp

theorem renderAll_rendered_eq (vtab : List (String × String)) :
    ∀ (ps : List TmplPiece),
      renderAll vtab (ps.map (renderedPiece vtab)) = renderAll vtab ps
  | [] => rfl
  | .lit s :: ps => by
    rw [List.map_cons, renderedPiece, renderAll, renderAll,
      renderAll_rendered_eq vtab ps]
  | .tok nm :: ps => by
    rw [List.map_cons, renderedPiece]
    split
    · next v hv =>
      rw [renderAll, renderAll, renderAll_rendered_eq vtab ps, renderPiece,
        renderPiece, tokenRepl, hv]
    · next hv =>
      rw [renderAll, renderAll, renderAll_rendered_eq vtab ps]

theorem expandVars_assemble (vtab : List (String × String)) (ps : List TmplPiece)
    (h : ∀ p ∈ ps, pieceWF p) :
    expandVars (String.mk (assemble ps)) vtab = String.mk (renderAll vtab ps) := by
  rw [expandVars, show (String.mk (assemble ps)).toList = assemble ps from rfl,
    expandChars_assemble vtab ps h]

/-- **C5 (counterexample).**  The claim "expanding twice yields the same string
as expanding once, for every string and variable table" is false: with
variables `a ↦ "\x7b\x7bb\x7d\x7d"`, `b ↦ "c"`, the input `"\x7b\x7ba\x7d\x7d"`
expands once to `"\x7b\x7bb\x7d\x7d"` and twice to `"c"` (`re.sub` does not
rescan replacements within a pass, but a second call rescans the whole
result). -/
theorem expandVars_not_idempotent :
    expandVars
        (expandVars (String.mk ['{', '{', 'a', '}', '}'])
          [("a", String.mk ['{', '{', 'b', '}', '}']), ("b", "c")])
        [("a", String.mk ['{', '{', 'b', '}', '}']), ("b", "c")] ≠
      expandVars (String.mk ['{', '{', 'a', '}', '}'])
        [("a", String.mk ['{', '{', 'b', '}', '}']), ("b", "c")] := by
  have h1 : expandVars (String.mk ['{', '{', 'a', '}', '}'])
      [("a", String.mk ['{', '{', 'b', '}', '}']), ("b", "c")] =
      String.mk ['{', '{', 'b', '}', '}'] := by
    rw [show String.mk ['{', '{', 'a', '}', '}'] =
      String.mk (assemble [TmplPiece.tok ['a']]) from rfl]
    rw [expandVars_assemble _ _ (by decide)]
    decide
  have h2 : expandVars (String.mk ['{', '{', 'b', '}', '}'])
      [("a", String.mk ['{', '{', 'b', '}', '}']), ("b", "c")] = "c" := by
    rw [show String.mk ['{', '{', 'b', '}', '}'] =
      String.mk (assemble [TmplPiece.tok ['b']]) from rfl]
    rw [expandVars_assemble _ _ (by decide)]
    decide
  rw [h1, h2]
  decide

/-- **C5 (amended).**  Variable substitution is idempotent provided every
variable value is brace-free and the input decomposes into brace-free literal
segments and well-formed `\x7b\x7bname\x7d\x7d` tokens.  (The counterexample
`expandVars_not_idempotent` shows some restriction on values re-forming tokens
is forced; without it a replacement value containing a token is re-expanded by
the second pass.) -/
theorem expandVars_idempotent_of_wellformed (vtab : List (String × String))
    (ps : List TmplPiece) (hps : ∀ p ∈ ps, pieceWF p)
    (hv : ∀ kv ∈ vtab, ∀ c ∈ (kv.2 : String).toList, c ≠ '{' ∧ c ≠ '}') :
    expandVars (expandVars (String.mk (assemble ps)) vtab) vtab =
      expandVars (String.mk (assemble ps)) vtab := by
  have hmap : ∀ p ∈ ps.map (renderedPiece vtab), pieceWF p := by
    intro p hp
    obtain ⟨q, hq, rfl⟩ := List.mem_map.mp hp
    exact renderedPiece_WF vtab hv q (hps q hq)
  rw [expandVars_assemble vtab ps hps]
  calc expandVars (String.mk (renderAll vtab ps)) vtab
      = expandVars (String.mk (assemble (ps.map (renderedPiece vtab)))) vtab := by
        rw [renderAll_eq_assemble_rendered]
    _ = String.mk (renderAll vtab (ps.map (renderedPiece vtab))) :=
        expandVars_assemble _ _ hmap
    _ = String.mk (renderAll vtab ps) := by rw [renderAll_rendered_eq]

/-- Witness for `expandVars_idempotent_of_wellformed` at a concrete input. -/
theorem expandVars_idempotent_of_wellformed_witness :
    expandVars
        (expandVars
          (String.mk (assemble [TmplPiece.tok ['a'], TmplPiece.lit [' '],
            TmplPiece.tok ['q']])) [("a", "A1")]) [("a", "A1")] =
      expandVars
        (String.mk (assemble [TmplPiece.tok ['a'], TmplPiece.lit [' '],
          TmplPiece.tok ['q']])) [("a", "A1")] :=
  expandVars_idempotent_of_wellformed [("a", "A1")] _ (by decide) (by decide)

/-- **C6.**  Unresolved `\x7b\x7bname\x7d\x7d` tokens are left verbatim:
(1) in any context of `'\x7b'`-free text, a well-formed token whose name is not
in the table is reproduced unchanged; (2) the documented example
`"Executive Summary — \x7b\x7bclient\x7d\x7d (\x7b\x7byear\x7d\x7d)"` with
`client=Acme`, `year=2025` renders to `"Executive Summary — Acme (2025)"`;
(3) `"\x7b\x7bmissing\x7d\x7d"` renders literally as itself. -/
theorem unresolved_tokens_verbatim :
    (∀ (vtab : List (String × String)) (nm l r : List Char),
        nm ≠ [] → (∀ c ∈ nm, isNameChar c = true) →
        assocLookup vtab (String.mk nm) = none →
        (∀ c ∈ l, c ≠ '{') → (∀ c ∈ r, c ≠ '{') →
        expandVars (String.mk (l ++ '{' :: '{' :: (nm ++ '}' :: '}' :: r))) vtab =
          String.mk (l ++ '{' :: '{' :: (nm ++ '}' :: '}' :: r))) ∧
    expandVars "Executive Summary — \x7b\x7bclient\x7d\x7d (\x7b\x7byear\x7d\x7d)"
        [("client", "Acme"), ("year", "2025")] = "Executive Summary — Acme (2025)" ∧
    expandVars "\x7b\x7bmissing\x7d\x7d" [("client", "Acme"), ("year", "2025")] =
      "\x7b\x7bmissing\x7d\x7d" := by
  refine ⟨fun vtab nm l r h1 h2 h3 hl hr => ?_, ?_, ?_⟩
  · rw [expandVars, show (String.mk (l ++ '{' :: '{' :: (nm ++ '}' :: '}' :: r))).toList =
      l ++ '{' :: '{' :: (nm ++ '}' :: '}' :: r) from rfl,
      expandChars_passthrough vtab l _ hl, expandChars_token vtab nm r h1 h2,
      tokenRepl, h3, expandChars_bracefree vtab r hr]
    simp
  · rw [show ("Executive Summary — \x7b\x7bclient\x7d\x7d (\x7b\x7byear\x7d\x7d)" : String) =
      String.mk (assemble [TmplPiece.lit "Executive Summary — ".toList,
        TmplPiece.tok "client".toList, TmplPiece.lit " (".toList,
        TmplPiece.tok "year".toList, TmplPiece.lit ")".toList]) from by decide]
    rw [expandVars_assemble _ _ (by decide)]
    decide
  · rw [show ("\x7b\x7bmissing\x7d\x7d" : String) =
      String.mk (assemble [TmplPiece.tok "missing".toList]) from by decide]
    rw [expandVars_assemble _ _ (by decide)]
    decide

/-- Witness for `unresolved_tokens_verbatim` at a concrete input. -/
theorem unresolved_tokens_verbatim_witness :
    expandVars (String.mk (['x'] ++ '{' :: '{' :: (['q'] ++ '}' :: '}' :: ['y'])))
        [("client", "Acme")] =
      String.mk (['x'] ++ '{' :: '{' :: (['q'] ++ '}' :: '}' :: ['y'])) :=
  unresolved_tokens_verbatim.1 [("client", "Acme")] ['q'] ['x'] ['y']
    (by decide) (by decide) (by decide) (by decide) (by decide)

/-! ## Template model (masters, layouts, placeholders)

Geometry is in EMU; the core only multiplies and compares it, so `Int`
suffices.  `hasTextFrame` models python-pptx's `shape.has_text_frame`. -/

/-- Semantic placeholder types (`PP_PLACEHOLDER`), restricted to the members
the core mentions plus representatives of the rest. -/
inductive PhType where
  | TITLE
  | CENTER_TITLE
  | SUBTITLE
  | BODY
  | PICTURE
  | OBJECT
  | FOOTER
deriving DecidableEq

/-- `_ph_type_name`: the readable name of a placeholder type
(powerbb_v1.py lines 204-209). -/
def phTypeName : PhType → String
  | .TITLE => "TITLE"
  | .CENTER_TITLE => "CENTER_TITLE"
  | .SUBTITLE => "SUBTITLE"
  | .BODY => "BODY"
  | .PICTURE => "PICTURE"
  | .OBJECT => "OBJECT"
  | .FOOTER => "FOOTER"

structure Placeholder where
  idx : Nat
  phType : PhType
  phName : String
  left : Int
  top : Int
  width : Int
  height : Int
  hasTextFrame : Bool
deriving DecidableEq

structure Layout where
  name : String
  placeholders : List Placeholder
deriving DecidableEq

structure Master where
  name : String
  layouts : List Layout
deriving DecidableEq

/-! ## Body-slot counting (C4)

`_build_template_profile` (lines 277-297) collects every placeholder that has
a `placeholder_format` into `phs` (recording `_ph_type_name(phf.type)` as its
`"type"` string) and counts
`body_slots = sum(1 for p in phs if p["type"] not in ("TITLE", "CENTER_TITLE",
"SUBTITLE"))`.  `_layout_body_count` (lines 234-243) does the same count
against the enum values.  Neither consults `has_text_frame`. -/

/-- The `body_slots` value `_build_template_profile` stores for one layout. -/
def profileBodySlots (l : Layout) : Nat :=
  (l.placeholders.filter (fun p =>
    !(["TITLE", "CENTER_TITLE", "SUBTITLE"].contains (phTypeName p.phType)))).length

/-- Embedding of `_layout_body_count`. -/
def layoutBodyCount (l : Layout) : Nat :=
  (l.placeholders.filter (fun p =>
    !([PhType.TITLE, PhType.CENTER_TITLE, PhType.SUBTITLE].contains p.phType))).length

/-- Modelled from the spec's words (§3, §4.1 and the glossary): a body slot is
a placeholder whose semantic type is not title/center-title/subtitle AND that
can hold text.  Stated only to compare the source's counters against the
claimed classification. -/
def specBodySlots (l : Layout) : Nat :=
  (l.placeholders.filter (fun p =>
    !([PhType.TITLE, PhType.CENTER_TITLE, PhType.SUBTITLE].contains p.phType)
      && p.hasTextFrame)).length

/-- A layout whose only placeholder is a picture placeholder with no text
frame, as found in stock "Picture with Caption"-style layouts. -/
def pictureOnlyLayout : Layout :=
  { name := "Picture Only"
    placeholders := [
      { idx := 1, phType := .PICTURE, phName := "Picture Placeholder 1",
        left := 0, top := 0, width := 100, height := 100,
        hasTextFrame := false }] }

/-! ## Layout resolution (`_resolve_layout`, C2 and C8) -/

/-- Python truthiness of `x or ""` patterns for optional strings: `None` and
`""` are falsy. -/
def truthyStr : Option String → Bool
  | none => false
  | some s => !(s == "")

/-- Python `s.strip()` on strings. -/
def pyStripStr (s : String) : String :=
  String.mk (pyStrip s.toList)

/-- Python sequence indexing with negative-index wraparound, also returning
the resolved non-negative index; `none` models an `IndexError`. -/
def pyIdxNat {α : Type} (xs : List α) (i : Int) : Option (Nat × α) :=
  let j : Int := if 0 ≤ i then i else (xs.length : Int) + i
  if 0 ≤ j then (xs.get? j.toNat).map (fun a => (j.toNat, a)) else none

/-- Python `int(s)` on a decimal string: optional surrounding whitespace, an
optional sign, then digits; `none` models the `ValueError`. -/
def parseInt (s : String) : Option Int :=
  let cs := pyStrip s.toList
  let signDigits : Int × List Char :=
    match cs with
    | '-' :: rest => (-1, rest)
    | '+' :: rest => (1, rest)
    | _ => (1, cs)
  if signDigits.2 = [] || !(signDigits.2.all Char.isDigit) then none
  else some (signDigits.1 *
    ((signDigits.2.foldl (fun acc c => acc * 10 + (c.toNat - '0'.toNat)) 0 : Nat) : Int))

/-- Python `s.split(sep)` for a one-character separator, structurally.  `acc`
holds the current field, reversed. -/
def splitChAux (sep : Char) : List Char → List Char → List (List Char)
  | [], acc => [acc.reverse]
  | c :: rest, acc =>
    if c = sep then acc.reverse :: splitChAux sep rest []
    else splitChAux sep rest (c :: acc)

/-- Python `s.split(sep)` on a character list. -/
def splitCh (sep : Char) (cs : List Char) : List (List Char) :=
  splitChAux sep cs []

/-- `m, l = map(int, token.split(":"))`: exactly two colon-separated integer
fields; `none` models the `ValueError` of a malformed token. -/
def parseToken (s : String) : Option (Int × Int) :=
  match splitCh ':' s.toList with
  | [a, b] =>
    match parseInt (String.mk a), parseInt (String.mk b) with
    | some m, some l => some (m, l)
    | _, _ => none
  | _ => none

/-- The slide-spec fields `_resolve_layout` reads (`layout`, `layout_id`,
`like_slide`). -/
structure SlideSpecRef where
  layout : Option String
  layout_id : Option String
  like_slide : Option Int
deriving DecidableEq

/-- The meta fields `_resolve_layout` reads. -/
structure MetaCfg where
  layout_aliases : List (String × String)
  default_layout : Option String
  fallback_layout : Option String
deriving DecidableEq

/-- What `identify_slide_layout` recovers for one template slide: the slide's
layout name and, when the layout object is found among the masters' layouts,
its `(master_idx, layout_idx)` token (the source recovers the pair by an
object-identity search and formats it as `"m:l"`; we store the parsed pair
directly). -/
structure TemplateSlide where
  layoutName : String
  layoutRef : Option (Nat × Nat)
deriving DecidableEq

/-- The template file as `identify_slide_layout` reads it. -/
structure TemplateFile where
  slides : List TemplateSlide
deriving DecidableEq

/-- Embedding of `identify_slide_layout` (powerbb_v1.py lines 1561-1589): a
1-based slide number outside `1..len(slides)` raises `ValueError` — there is
no strict flag here and the caller `_resolve_layout` does not catch it. -/
def identifySlideLayout (tmpl : TemplateFile) (n : Int) : Except String TemplateSlide :=
  if n < 1 || (tmpl.slides.length : Int) < n then
    Except.error ("Slide " ++ toString n ++ " out of range (1.." ++
      toString tmpl.slides.length ++ ")")
  else
    match tmpl.slides.get? (n - 1).toNat with
    | some s => Except.ok s
    | none => Except.error "unreachable"

/-- Flat `(master_idx, layout_idx, layout)` enumeration across all masters in
master-major order (`_resolve_layout`'s `all_layouts`). -/
def enumLayouts (masters : List Master) : List (Nat × Nat × Layout) :=
  (masters.enum.map (fun mi =>
    mi.2.layouts.enum.map (fun li => (mi.1, li.1, li.2)))).flatten

/-- First layout whose whitespace-normalised name equals the normalised
candidate (the step-4 fallback scan). -/
def findByNormName (allLayouts : List (Nat × Nat × Layout)) (cand : String) :
    Option (Nat × Nat × Layout) :=
  allLayouts.find? (fun t => normSpace t.2.2.name == normSpace cand)

/-- `_resolve_layout` step 5: absolute last resort `all_layouts[0]`;
IndexError if the inventory is empty. -/
def resolveStep5 (masters : List Master) : Except String (Nat × Nat × Layout) :=
  match enumLayouts masters with
  | [] => Except.error "IndexError: list index out of range"
  | t :: _ => Except.ok t

/-- `_resolve_layout` step 4: `meta['default_layout']` then
`meta['fallback_layout']`, matched by whitespace-normalised name; falls
through to step 5. -/
def resolveStep4 (masters : List Master) (meta : MetaCfg) :
    Except String (Nat × Nat × Layout) :=
  match (if truthyStr meta.default_layout then
          findByNormName (enumLayouts masters) (meta.default_layout.getD "")
        else none) with
  | some t => Except.ok t
  | none =>
    match (if truthyStr meta.fallback_layout then
            findByNormName (enumLayouts masters) (meta.fallback_layout.getD "")
          else none) with
    | some t => Except.ok t
    | none => resolveStep5 masters

/-- `_resolve_layout` step 3: `like_slide` looked up in the template file.
`identify_slide_layout`'s ValueError propagates (nothing catches it); a token
from the template is applied to `prs`'s masters by plain indexing, whose
IndexError also propagates.  Falls through to step 4. -/
def resolveStep3 (masters : List Master) (likeSlide : Option Int)
    (templatePath : Option TemplateFile) (meta : MetaCfg) :
    Except String (Nat × Nat × Layout) :=
  match likeSlide, templatePath with
  | some n, some tmpl =>
    if n ≠ 0 then
      match identifySlideLayout tmpl n with
      | Except.error e => Except.error e
      | Except.ok sl =>
        match sl.layoutRef with
        | some ml =>
          (match pyIdxNat masters (ml.1 : Int) with
           | some mast =>
             (match pyIdxNat mast.2.layouts (ml.2 : Int) with
              | some lay => Except.ok (mast.1, lay.1, lay.2)
              | none => Except.error "IndexError: slide_layouts")
           | none => Except.error "IndexError: slide_masters")
        | none =>
          if sl.layoutName ≠ "" then
            match (enumLayouts masters).find? (fun t => t.2.2.name == sl.layoutName) with
            | some t => Except.ok t
            | none => resolveStep4 masters meta
          else resolveStep4 masters meta
    else resolveStep4 masters meta
  | _, _ => resolveStep4 masters meta

/-- `_resolve_layout` step 2: resolved-name match across all masters.  A
unique match is returned; an ambiguous name raises in strict mode and takes
the first match otherwise; no match (or a blank name) falls through to
step 3. -/
def resolveStep2 (masters : List Master) (name : String) (likeSlide : Option Int)
    (templatePath : Option TemplateFile) (meta : MetaCfg) (strict : Bool) :
    Except String (Nat × Nat × Layout) :=
  if name ≠ "" then
    match (enumLayouts masters).filter (fun t => normSpace t.2.2.name == name) with
    | [t] => Except.ok t
    | t :: _ :: _ =>
      if strict then Except.error ("Ambiguous layout name " ++ name)
      else Except.ok t
    | [] => resolveStep3 masters likeSlide templatePath meta
  else resolveStep3 masters likeSlide templatePath meta

/-- Embedding of `_resolve_layout` (powerbb_v1.py lines 696-784), composed
from the numbered steps above (the source writes them as one function body;
the fall-through order is identical).  The result carries the
`(master_idx, layout_idx)` of the returned layout object so that "which
layout" is object identity; `Except.error` models an uncaught Python
exception escaping the call. -/
def resolveLayout (masters : List Master) (spec : SlideSpecRef)
    (templatePath : Option TemplateFile) (meta : MetaCfg) (strict : Bool) :
    Except String (Nat × Nat × Layout) :=
  let name0 := pyStripStr (spec.layout.getD "")
  let name := if name0 ≠ "" then
      (assocLookup meta.layout_aliases (normSpace name0)).getD (normSpace name0)
    else name0
  let token := pyStripStr (spec.layout_id.getD "")
  let step2 := resolveStep2 masters name spec.like_slide templatePath meta strict
  -- Step 1: exact `m:l` token.
  if token ≠ "" then
    match parseToken token with
    | some ml =>
      (match pyIdxNat masters ml.1 with
       | some mast =>
         (match pyIdxNat mast.2.layouts ml.2 with
          | some lay => Except.ok (mast.1, lay.1, lay.2)
          | none => if strict then Except.error ("Bad layout_id " ++ token) else step2)
       | none => if strict then Except.error ("Bad layout_id " ++ token) else step2)
    | none => if strict then Except.error ("Bad layout_id " ++ token) else step2
  else step2

/-- Splitting a filtered count by a second predicate. -/
theorem filter_split_length {α : Type} (q p : α → Bool) :
    ∀ (xs : List α), (xs.filter p).length =
      (xs.filter (fun a => p a && q a)).length +
        (xs.filter (fun a => p a && !q a)).length
  | [] => rfl
  | a :: xs => by
    have ih := filter_split_length q p xs
    cases hp : p a <;> cases hq : q a <;>
      simp [List.filter_cons, hp, hq, ih] <;> omega

/-- **C4 (counterexample).**  The claim "a placeholder is counted as a body
slot exactly when its type is not title/center-title/subtitle AND it can hold
text; a placeholder without text capability is never counted" is false on the
code: the profile's `body_slots` and `_layout_body_count` both count a
picture placeholder with no text frame. -/
theorem bodySlots_count_textless_placeholder :
    profileBodySlots pictureOnlyLayout = 1 ∧
    layoutBodyCount pictureOnlyLayout = 1 ∧
    specBodySlots pictureOnlyLayout = 0 := by
  decide

/-- **C4 (amended).**  Body-slot counting excludes exactly the
title/center-title/subtitle placeholder types and ignores text capability:
the profile's string-name count and `_layout_body_count`'s enum count agree,
and both exceed the spec-worded (text-capable) count by the number of
non-title placeholders that cannot hold text. -/
theorem bodySlots_ignore_text_capability (l : Layout) :
    profileBodySlots l = layoutBodyCount l ∧
    layoutBodyCount l = specBodySlots l +
      (l.placeholders.filter (fun p =>
        !([PhType.TITLE, PhType.CENTER_TITLE, PhType.SUBTITLE].contains p.phType)
          && !p.hasTextFrame)).length := by
  constructor
  · unfold profileBodySlots layoutBodyCount
    congr 1
    apply List.filter_congr
    intro p _
    obtain ⟨i, pt, nm, le, to', wi, he, tf⟩ := p
    cases pt <;> rfl
  · exact filter_split_length (fun p => p.hasTextFrame) _ l.placeholders

/-- **C2 (counterexample).**  The claim "resolution with strict=false never
raises … including a `like_slide` slide number out of range and an empty
inventory" is false: (1) `like_slide = 7` against a one-slide template makes
`identify_slide_layout` raise `ValueError` (nothing catches it, strict or
not); (2) with an empty layout inventory the final `all_layouts[0]` fallback
raises `IndexError`. -/
theorem nonstrict_resolution_can_raise :
    (∃ e, resolveLayout
        [{ name := "Office Theme",
           layouts := [{ name := "Title and Content", placeholders := [] }] }]
        { layout := none, layout_id := none, like_slide := some 7 }
        (some { slides := [{ layoutName := "Title and Content",
                             layoutRef := some (0, 0) }] })
        { layout_aliases := [], default_layout := none, fallback_layout := none }
        false = Except.error e) ∧
    (∃ e, resolveLayout []
        { layout := none, layout_id := none, like_slide := none }
        none
        { layout_aliases := [], default_layout := none, fallback_layout := none }
        false = Except.error e) :=
  ⟨⟨_, rfl⟩, ⟨_, rfl⟩⟩

/-- **C2 (amended).**  With `strict=false`, resolution steps 1 (explicit
token) and 2 (name match) never raise; provided additionally that the slide
spec carries no `like_slide` reference and the inventory is non-empty,
`_resolve_layout` always returns a usable layout.  (The counterexample
`nonstrict_resolution_can_raise` shows the two extra provisos are forced:
an out-of-range `like_slide` raises even in non-strict mode, and an empty
inventory makes the last-resort `all_layouts[0]` raise.) -/
theorem resolveStep5_total (masters : List Master)
    (hinv : enumLayouts masters ≠ []) :
    ∃ t, resolveStep5 masters = Except.ok t := by
  rcases h : enumLayouts masters with _ | ⟨t, ts⟩
  · exact absurd h hinv
  · exact ⟨t, by unfold resolveStep5; rw [h]⟩

theorem resolveStep4_total (masters : List Master) (meta : MetaCfg)
    (hinv : enumLayouts masters ≠ []) :
    ∃ t, resolveStep4 masters meta = Except.ok t := by
  unfold resolveStep4
  repeat first
    | exact ⟨_, rfl⟩
    | exact resolveStep5_total masters hinv
    | split

theorem resolveStep3_none (masters : List Master)
    (templatePath : Option TemplateFile) (meta : MetaCfg) :
    resolveStep3 masters none templatePath meta = resolveStep4 masters meta := by
  unfold resolveStep3
  cases templatePath <;> rfl

theorem resolveStep2_total (masters : List Master) (name : String)
    (templatePath : Option TemplateFile) (meta : MetaCfg)
    (hinv : enumLayouts masters ≠ []) :
    ∃ t, resolveStep2 masters name none templatePath meta false = Except.ok t := by
  have h34 : ∃ t, resolveStep3 masters none templatePath meta = Except.ok t := by
    rw [resolveStep3_none]
    exact resolveStep4_total masters meta hinv
  unfold resolveStep2
  repeat first
    | exact ⟨_, rfl⟩
    | exact h34
    | exact absurd ‹false = true› (by decide)
    | split

theorem nonstrict_resolution_total (masters : List Master) (spec : SlideSpecRef)
    (templatePath : Option TemplateFile) (meta : MetaCfg)
    (hlike : spec.like_slide = none)
    (hinv : enumLayouts masters ≠ []) :
    ∃ t, resolveLayout masters spec templatePath meta false = Except.ok t := by
  unfold resolveLayout
  rw [hlike]
  dsimp only
  repeat first
    | exact ⟨_, rfl⟩
    | exact resolveStep2_total masters _ templatePath meta hinv
    | exact absurd ‹false = true› (by decide)
    | split

/-- Witness for `nonstrict_resolution_total` at a concrete input. -/
theorem nonstrict_resolution_total_witness :
    ∃ t, resolveLayout
        [{ name := "Office Theme",
           layouts := [{ name := "Title and Content", placeholders := [] }] }]
        { layout := some "No Such Layout", layout_id := some "9:9", like_slide := none }
        none
        { layout_aliases := [], default_layout := none, fallback_layout := none }
        false = Except.ok t :=
  nonstrict_resolution_total _ _ _ _ rfl (by decide)

/-- **C8.**  Name resolution (step 2) is deterministic: the embedding is a
pure function, so repeated calls on the same inputs agree definitionally; this
theorem pins down the value.  With no explicit token, a non-blank layout name
that is not an alias key: (1) in non-strict mode the first match in
master/layout enumeration order is returned whenever any match exists — in
particular an unambiguous name always resolves to its unique match; (2) in
strict mode a unique match is returned; (3) in strict mode two or more
matches raise. -/
theorem layout_resolution_by_name (masters : List Master) (spec : SlideSpecRef)
    (templatePath : Option TemplateFile) (meta : MetaCfg) (n : String)
    (hname : spec.layout = some n)
    (hid : spec.layout_id = none)
    (hnn : normSpace (pyStripStr n) ≠ "")
    (halias : assocLookup meta.layout_aliases (normSpace (pyStripStr n)) = none) :
    (∀ t rest, (enumLayouts masters).filter
        (fun t' => normSpace t'.2.2.name == normSpace (pyStripStr n)) = t :: rest →
      resolveLayout masters spec templatePath meta false = Except.ok t) ∧
    (∀ t, (enumLayouts masters).filter
        (fun t' => normSpace t'.2.2.name == normSpace (pyStripStr n)) = [t] →
      resolveLayout masters spec templatePath meta true = Except.ok t) ∧
    (∀ t1 t2 rest, (enumLayouts masters).filter
        (fun t' => normSpace t'.2.2.name == normSpace (pyStripStr n)) = t1 :: t2 :: rest →
      ∃ e, resolveLayout masters spec templatePath meta true = Except.error e) := by
  have hn0 : ¬ pyStripStr n = "" := fun h => hnn (by rw [h]; rfl)
  have hred : ∀ strict, resolveLayout masters spec templatePath meta strict =
      resolveStep2 masters (normSpace (pyStripStr n)) spec.like_slide
        templatePath meta strict := by
    intro strict
    unfold resolveLayout
    rw [hname, hid]
    simp only [Option.getD_some, Option.getD_none,
      show pyStripStr "" = "" from rfl, ne_eq, eq_self_iff_true, not_true_eq_false,
      ite_false, hn0, not_false_eq_true, ite_true, halias]
  refine ⟨?_, ?_, ?_⟩
  · intro t rest hfilt
    rw [hred false]
    unfold resolveStep2
    rw [if_pos hnn, hfilt]
    cases rest <;> rfl
  · intro t hfilt
    rw [hred true]
    unfold resolveStep2
    rw [if_pos hnn, hfilt]
  · intro t1 t2 rest hfilt
    rw [hred true]
    unfold resolveStep2
    rw [if_pos hnn, hfilt]
    exact ⟨_, rfl⟩

/-! ## Rendering model (paragraphs, runs, text frames, shapes)

The paragraph/run/bodyPr state is the slice of the python-pptx document
object model that the renderer reads and writes.  `a:bodyPr` autofit children
and the `auto_size` API property are modelled as separate state components,
matching the spec's §9 interface description (set auto-size mode, set list
formatting, set per-run style, …). -/

/-- Explicit list formatting on a paragraph (`a:buNone` / `a:buChar` /
`a:buAutoNum`), or none set (template-inherited). -/
inductive ListFmt where
  | inherit
  | buNone
  | buChar (char : Char)
  | buAutoNum (numType : String) (startAt : Option Int)
deriving DecidableEq

/-- Run-level font state the core writes. -/
structure TextRun where
  size : Option Nat
  bold : Option Bool
  italic : Option Bool
  color : Option String
  fontName : Option String
deriving DecidableEq

/-- A freshly created run, before any styling. -/
def blankRun : TextRun :=
  { size := none, bold := none, italic := none, color := none, fontName := none }

/-- Paragraph state the core writes. -/
structure Para where
  text : String
  level : Nat
  fmt : ListFmt
  runs : List TextRun
  spaceBeforePt : Option Nat
  spaceAfterPt : Option Nat
  lineSpacing : Option Nat
deriving DecidableEq

/-- A freshly added paragraph (`tf.add_paragraph()`). -/
def defaultPara : Para :=
  { text := "", level := 0, fmt := .inherit, runs := [],
    spaceBeforePt := none, spaceAfterPt := none, lineSpacing := none }

instance : Inhabited Para := ⟨defaultPara⟩

/-- `a:bodyPr` children relevant to autofit, plus opaque other children. -/
inductive BodyPrEl where
  | noAutofit
  | spAutoFit
  | normAutofit (lnSpcReduction : Option Nat)
  | otherEl (tag : String)
deriving DecidableEq

/-- The tags `_set_autofit_mode`/`_finalize_text_frame_autofit` remove:
`a:noAutofit`, `a:spAutoFit`, `a:normAutofit`. -/
def isAutofitEl : BodyPrEl → Bool
  | .noAutofit => true
  | .spAutoFit => true
  | .normAutofit _ => true
  | .otherEl _ => false

/-- `MSO_AUTO_SIZE` values the core uses. -/
inductive AutoSizeMode where
  | NONE
  | TEXT_TO_FIT_SHAPE
  | SHAPE_TO_FIT_TEXT
deriving DecidableEq

/-- Text-frame state the core reads and writes. -/
structure TextFrame where
  paras : List Para
  bodyPr : List BodyPrEl
  autoSize : Option AutoSizeMode
  wordWrap : Option Bool
deriving DecidableEq

/-- A shape on an instantiated slide.  `phType = none` models a shape with no
`placeholder_format`. -/
structure Shape where
  phType : Option PhType
  hasTextFrame : Bool
  left : Int
  top : Int
  width : Int
  height : Int
  tf : TextFrame
deriving DecidableEq

/-- An instantiated slide. -/
structure Slide where
  shapes : List Shape
deriving DecidableEq

/-- Per-paragraph style keys (`bold`/`italic`/`color`/`size_pt`). -/
structure Style where
  bold : Option Bool
  italic : Option Bool
  color : Option String
  size_pt : Option Nat
deriving DecidableEq

/-- An absent / empty style map. -/
def noStyle : Style := { bold := none, italic := none, color := none, size_pt := none }

/-- The `meta.defaults` fields the renderer reads. -/
structure Defaults where
  list_type : Option String
  font_family : Option String
  body_size_pt : Option Nat
  title_size_pt : Option Nat
deriving DecidableEq

/-- A parsed BulletNode: text, style, ordered children. -/
inductive BulletNode where
  | mk (text : String) (style : Style) (children : List BulletNode)

/-- A region (`left` / `right`): list type, numbering start, bullet forest. -/
structure Region where
  list_type : Option String
  start_at : Option Int
  bullets : List BulletNode

/-! ### Paragraph operations -/

/-- `_set_no_bullets`: clear list formatting, then `a:buNone`. -/
def setNoBullets (p : Para) : Para := { p with fmt := .buNone }

/-- `_set_bullet`: clear list formatting, then `a:buChar char="…"`. -/
def setBullet (p : Para) (char : Char) : Para := { p with fmt := .buChar char }

/-- `_set_numbering`: clear list formatting, then `a:buAutoNum`, with
`startAt` only when given (powerbb_v1.py lines 175-187). -/
def setNumbering (p : Para) (startAt : Option Int)
    (numType : String := "arabicPeriod") : Para :=
  { p with fmt := .buAutoNum numType startAt }

/-- `p.text = s`: replace the paragraph's content with one new run. -/
def paraSetText (p : Para) (s : String) : Para :=
  { p with text := s, runs := [blankRun] }

/-- `p.clear()`: drop the runs, keep paragraph-level properties. -/
def paraClear (p : Para) : Para := { p with text := "", runs := [] }

/-- `p.level = n`. -/
def paraSetLevel (p : Para) (n : Nat) : Para := { p with level := n }

/-- `_set_text_style` (powerbb_v1.py lines 429-452): ensure at least one run,
then apply the style to every run; absent keys leave inherited values;
`size_pt` falls back to the default and `0`/empty values are falsy. -/
def setTextStyle (p : Para) (style : Style) (fontFamilyDefault : Option String)
    (sizeDefaultPt : Option Nat) : Para :=
  let runs0 := if p.runs = [] then [blankRun] else p.runs
  let sizePt := match style.size_pt with
    | some v => some v
    | none => sizeDefaultPt
  let apply1 := fun (r : TextRun) =>
    let r := match style.bold with
      | some b => { r with bold := some b }
      | none => r
    let r := match style.italic with
      | some b => { r with italic := some b }
      | none => r
    let r := match sizePt with
      | some v => if v ≠ 0 then { r with size := some v } else r
      | none => r
    let r := match style.color with
      | some c => if c ≠ "" then { r with color := some c } else r
      | none => r
    match fontFamilyDefault with
      | some f => if f ≠ "" then { r with fontName := some f } else r
      | none => r
  { p with runs := runs0.map apply1 }

/-- `_tighten_paragraph_spacing`: zero space before/after, line spacing 1.0
(stored as the multiplier `1`). -/
def tightenParagraphSpacing (p : Para) : Para :=
  { p with spaceBeforePt := some 0, spaceAfterPt := some 0, lineSpacing := some 1 }

/-! ### Flattening the bullet tree (`_flatten_nodes`, lines 562-579) -/

mutual
/-- Depth-first, parent-before-children flattening of a node list. -/
def flattenNodes (vtab : List (String × String)) :
    List BulletNode → Nat → List (Nat × String × Style)
  | [], _ => []
  | n :: rest, level => flattenNode vtab n level ++ flattenNodes vtab rest level

/-- One node: emit `(level, expanded text, style)` then the children at
`level + 1`. -/
def flattenNode (vtab : List (String × String)) :
    BulletNode → Nat → List (Nat × String × Style)
  | .mk t st ch, level =>
    (level, expandVars t vtab, st) :: flattenNodes vtab ch (level + 1)
end

/-- `_flatten_nodes(nodes, variables)`: the walk starts at level 0. -/
def flattenNodesTop (vtab : List (String × String)) (nodes : List BulletNode) :
    List (Nat × String × Style) :=
  flattenNodes vtab nodes 0

/-! ### Region rendering (`_append_region_paragraphs`, lines 952-993) -/

/-- `(region.get("list_type") or defaults.get("list_type") or
"bullet").lower()`. -/
def orStr (a b : Option String) : Option String :=
  match a with
  | some s => if s ≠ "" then some s else b
  | none => b

/-- ASCII lowercasing (Python `str.lower()` on the values that occur). -/
def pyLower (s : String) : String :=
  String.mk (s.toList.map Char.toLower)

/-- The effective list type of a region. -/
def effListType (region : Region) (defaults : Defaults) : String :=
  pyLower ((orStr region.list_type (orStr defaults.list_type (some "bullet"))).getD "bullet")

/-- `int(region.get("start_at") or 1)`: `None` and `0` are falsy. -/
def effStartAt (region : Region) : Int :=
  match region.start_at with
  | some v => if v ≠ 0 then v else 1
  | none => 1

/-- The paragraph written for one flattened item: set text, set level, set
bullet/number formatting, apply style, tighten spacing — in the loop's
order. -/
def renderItem (level : Nat) (text : String) (style : Style) (listType : String)
    (startAtOpt : Option Int) (fontFamily : Option String)
    (bodySizePt : Option Nat) (base : Para) : Para :=
  let p := paraSetText base text
  let p := paraSetLevel p level
  let p := if listType = "number" then setNumbering p startAtOpt else setBullet p '•'
  let p := setTextStyle p style fontFamily bodySizePt
  tightenParagraphSpacing p

/-- The `for (level, text, style) in items` loop of
`_append_region_paragraphs`, carried over the paragraph list with the
`first_used` / `top_started` state. -/
def appendRegionLoop (listType : String) (startAt : Int)
    (fontFamily : Option String) (bodySizePt : Option Nat) (useFirstPara : Bool) :
    List (Nat × String × Style) → List Para → Bool → Bool → List Para
  | [], paras, _, _ => paras
  | (level, text, style) :: rest, paras, firstUsed, topStarted =>
    let startOpt : Option Int :=
      if level = 0 ∧ topStarted = false then some startAt else none
    let topStarted' : Bool :=
      if listType = "number" ∧ level = 0 ∧ topStarted = false then true
      else topStarted
    if useFirstPara ∧ firstUsed = false ∧ paras ≠ [] then
      appendRegionLoop listType startAt fontFamily bodySizePt useFirstPara rest
        (paras.set 0 (renderItem level text style listType startOpt fontFamily
          bodySizePt (paraClear paras.headI)))
        true topStarted'
    else
      appendRegionLoop listType startAt fontFamily bodySizePt useFirstPara rest
        (paras ++ [renderItem level text style listType startOpt fontFamily
          bodySizePt defaultPara])
        firstUsed topStarted'

/-- Embedding of `_append_region_paragraphs`. -/
def appendRegionParagraphs (tf : TextFrame) (region : Region)
    (defaults : Defaults) (vtab : List (String × String)) (useFirstPara : Bool) :
    TextFrame :=
  let listType := effListType region defaults
  let startAt := effStartAt region
  let items := flattenNodesTop vtab region.bullets
  { tf with paras := (appendRegionLoop listType startAt defaults.font_family
      defaults.body_size_pt useFirstPara items tf.paras false false) }

/-! ### Autofit (`_prime_text_frame_for_shrink`,
`_finalize_text_frame_autofit`, C9) -/

/-- `tf.clear()`: python-pptx keeps exactly one cleared paragraph. -/
def tfClear (tf : TextFrame) : TextFrame := { tf with paras := [defaultPara] }

/-- `_prime_text_frame_for_shrink` (lines 932-950): replace autofit children
with a bare `a:normAutofit`, set `auto_size = TEXT_TO_FIT_SHAPE`, enable
wrap.  The `target_size_pt` / `font_family` parameters are unused in the
source body. -/
def primeTextFrameForShrink (tf : TextFrame) (targetSizePt : Option Nat)
    (fontFamily : Option String) : TextFrame :=
  { tf with
    bodyPr := tf.bodyPr.filter (fun el => !isAutofitEl el) ++ [BodyPrEl.normAutofit none],
    autoSize := some .TEXT_TO_FIT_SHAPE,
    wordWrap := some true }

/-- Modelled from the spec (§4.5, §9): the best-fit pass of the external
`fit_text` document-model primitive.  `fits s` abstracts "the text fits the
box at size `s`"; it depends on the frame's text, geometry and font family —
which the autofit pass does not change — and not on current run sizes.  The
chosen size is the largest in `[minSize, maxSize]` that fits, else the
floor. -/
def bestFitSize (fits : Nat → Bool) (maxSize minSize : Nat) : Nat :=
  match ((List.range (maxSize + 1 - minSize)).map (fun k => maxSize - k)).find? fits with
  | some s => s
  | none => minSize

/-- `tf.fit_text(max_size, …, font_family, min_size)`: set every run of every
paragraph to the best-fit size and the given family. -/
def fitText (tf : TextFrame) (fits : Nat → Bool) (maxSize minSize : Nat)
    (fontFamily : Option String) : TextFrame :=
  let s := bestFitSize fits maxSize minSize
  { tf with paras := tf.paras.map (fun p =>
      { p with runs := p.runs.map (fun r =>
          { r with size := some s, fontName := fontFamily }) }) }

/-- Embedding of `_finalize_text_frame_autofit` (lines 486-539) on a text
frame: force `<a:normAutofit lnSpcReduction="12000"/>`, enable wrap, set
`auto_size = NONE`, run `fit_text` from the target size down to
`max(9, int(target*0.55))` (integer arithmetic models the float truncation),
then restore `auto_size = TEXT_TO_FIT_SHAPE`. -/
def finalizeTextFrameAutofit (fits : Nat → Bool) (tf : TextFrame)
    (targetSizePt : Option Nat) (fontFamily : Option String) : TextFrame :=
  let tf := { tf with bodyPr :=
    (tf.bodyPr.filter (fun el => !isAutofitEl el) ++ [BodyPrEl.normAutofit (some 12000)]) }
  let tf := { tf with wordWrap := some true }
  let tf := { tf with autoSize := some .NONE }
  let mx := match targetSizePt with
    | some v => if v ≠ 0 then v else 24
    | none => 24
  let mn := max 9 (mx * 55 / 100)
  let tf := fitText tf fits mx mn fontFamily
  { tf with autoSize := some .TEXT_TO_FIT_SHAPE }

/-- `_finalize_text_frame_autofit` at shape level: a shape without a text
frame raises in `shape.text_frame` and the pass returns unchanged. -/
def finalizeShapeAutofit (fits : Nat → Bool) (shape : Shape)
    (targetSizePt : Option Nat) (fontFamily : Option String) : Shape :=
  if shape.hasTextFrame then
    { shape with tf := finalizeTextFrameAutofit fits shape.tf targetSizePt fontFamily }
  else shape

/-! ### Main/secondary body selection and the right-region write
(`_choose_main_and_secondary_text` lines 1192-1226,
`create_ppt_from_powerbb` lines 897-915, C1) -/

/-- The placeholder types `_choose_main_and_secondary_text` excludes. -/
def excludedBodyTypes : List PhType :=
  [.TITLE, .CENTER_TITLE, .SUBTITLE, .PICTURE, .OBJECT]

/-- Stable insertion into a descending-by-key list: an element goes after all
strictly larger keys and before equal ones. -/
def insertDesc {α : Type} (key : α → Int) (a : α) : List α → List α
  | [] => [a]
  | b :: bs => if key a < key b then b :: insertDesc key a bs else a :: b :: bs

/-- Stable descending sort by an integer key — the input/output behaviour of
Python's stable `list.sort(key=…, reverse=True)`. -/
def sortDesc {α : Type} (key : α → Int) : List α → List α
  | [] => []
  | a :: as => insertDesc key a (sortDesc key as)

/-- Embedding of `_choose_main_and_secondary_text`: candidates are the
text-capable non-excluded placeholders (falling back to any non-excluded
shape with a text frame), sorted by area descending; the result is
`(index of the largest, None)` — the source deliberately returns no
secondary box. -/
def chooseMainAndSecondary (slide : Slide) : Option Nat × Option Nat :=
  let cands0 := (slide.shapes.enum.filter (fun is =>
    match is.2.phType with
    | some t => !(excludedBodyTypes.contains t) && is.2.hasTextFrame
    | none => false)).map (fun is => (is.2.width * is.2.height, is.1))
  let cands := if cands0.isEmpty then
      (slide.shapes.enum.filter (fun is =>
        (match is.2.phType with
         | some t => !(excludedBodyTypes.contains t)
         | none => true) && is.2.hasTextFrame)).map
        (fun is => (is.2.width * is.2.height, is.1))
    else cands0
  let sorted := sortDesc (fun t => t.1) cands
  ((sorted.head?).map (fun t => t.2), none)

/-- Replace the `i`-th element of a list through `f`. -/
def modifyNth {α : Type} (f : α → α) : Nat → List α → List α
  | _, [] => []
  | 0, a :: as => f a :: as
  | n + 1, a :: as => a :: modifyNth f n as

/-- The spacer the right-region append path adds:
`spacer = tf.add_paragraph(); _set_no_bullets(spacer); spacer.text = ""`. -/
def addSpacer (tf : TextFrame) : TextFrame :=
  { tf with paras := tf.paras ++ [paraSetText (setNoBullets defaultPara) ""] }

/-- Embedding of the RIGHT-region block of `create_ppt_from_powerbb`
(lines 897-915): with no right region or no main box, nothing happens; a
non-`None` secondary would be primed, cleared and written directly; since
`_choose_main_and_secondary_text` always returns `None` for the secondary,
the content is appended to the main box after the spacer paragraph, and the
target is finalized. -/
def renderRightRegion (fits : Nat → Bool) (slide : Slide) (right : Option Region)
    (defaults : Defaults) (vtab : List (String × String)) : Slide :=
  match right with
  | none => slide
  | some reg =>
    match chooseMainAndSecondary slide with
    | (none, _) => slide
    | (some mi, secondary) =>
      match secondary with
      | some si =>
        { slide with shapes := (modifyNth (fun s =>
            { s with tf := (finalizeTextFrameAutofit fits
                (appendRegionParagraphs
                  (tfClear (primeTextFrameForShrink s.tf defaults.body_size_pt
                    defaults.font_family))
                  reg defaults vtab true)
                defaults.body_size_pt defaults.font_family) }) si slide.shapes) }
      | none =>
        { slide with shapes := (modifyNth (fun s =>
            { s with tf := (finalizeTextFrameAutofit fits
                (appendRegionParagraphs (addSpacer s.tf) reg defaults vtab false)
                defaults.body_size_pt defaults.font_family) }) mi slide.shapes) }

theorem map_idem {α : Type} (f : α → α) (hf : ∀ a, f (f a) = f a) (l : List α) :
    (l.map f).map f = l.map f := by
  rw [List.map_map]
  apply List.map_congr_left
  intro a _
  exact hf a

theorem filter_append_singleton_idem {α : Type} (p : α → Bool) (l : List α)
    (x : α) (hx : p x = false) :
    (l.filter p ++ [x]).filter p = l.filter p := by
  rw [List.filter_append, List.filter_filter]
  simp [hx, List.filter_congr]

/-- **C9.**  The autofit finalization pass is idempotent: a second application
with the same target size and font family leaves the shape's autofit flags
(the bodyPr children, including the line-spacing-reduction attribute), the
word-wrap setting, the `auto_size` mode and all run font sizes exactly as the
first application left them.  `fits` is the abstract font-metrics oracle of
the external `fit_text` primitive; it depends only on frame text, geometry
and family, none of which the pass changes, so it is the same in both
applications. -/
theorem autofit_finalize_idempotent (fits : Nat → Bool) (shape : Shape)
    (targetSizePt : Option Nat) (fontFamily : Option String) :
    finalizeShapeAutofit fits
        (finalizeShapeAutofit fits shape targetSizePt fontFamily)
        targetSizePt fontFamily =
      finalizeShapeAutofit fits shape targetSizePt fontFamily := by
  have htf : ∀ tf : TextFrame,
      finalizeTextFrameAutofit fits (finalizeTextFrameAutofit fits tf targetSizePt
        fontFamily) targetSizePt fontFamily =
      finalizeTextFrameAutofit fits tf targetSizePt fontFamily := by
    intro tf
    simp only [finalizeTextFrameAutofit, fitText]
    refine congrArg₂ (fun ps bs => TextFrame.mk ps bs (some .TEXT_TO_FIT_SHAPE)
      (some true)) ?_ ?_
    · apply map_idem
      intro p
      congr 1
      apply map_idem
      intro r
      rfl
    · exact congrArg (· ++ [BodyPrEl.normAutofit (some 12000)])
        (filter_append_singleton_idem _ tf.bodyPr _ rfl)
  unfold finalizeShapeAutofit
  cases h : shape.hasTextFrame
  · simp [h]
  · simp [h, htf]

/-- The level recorded for the `i`-th flattened item. -/
def itemLevel (items : List (Nat × String × Style)) (i : Nat) : Option Nat :=
  (items.get? i).map (fun it => it.1)

/-- The text frame, region and defaults of the specification's own numbering
example: a `number` region with `start_at = 3`, two level-0 items, the second
with one nested child, written into a cleared-empty frame. -/
def egTF : TextFrame := { paras := [], bodyPr := [], autoSize := none, wordWrap := none }

def egRegion : Region :=
  { list_type := some "number", start_at := some 3,
    bullets := [BulletNode.mk "A" noStyle [],
      BulletNode.mk "B" noStyle [BulletNode.mk "C" noStyle []]] }

def egDefaults : Defaults :=
  { list_type := none, font_family := none, body_size_pt := none,
    title_size_pt := none }

theorem renderItem_fmt_number (lvl : Nat) (tx : String) (st : Style)
    (so : Option Int) (ff : Option String) (bs : Option Nat) (base : Para) :
    (renderItem lvl tx st "number" so ff bs base).fmt =
      ListFmt.buAutoNum "arabicPeriod" so := by
  simp [renderItem, tightenParagraphSpacing, setTextStyle, setNumbering,
    paraSetLevel, paraSetText]

theorem appendRegionLoop_false_append (lt : String) (sa : Int)
    (ff : Option String) (bs : Option Nat) :
    ∀ (items : List (Nat × String × Style)) (paras : List Para) (fu ts : Bool),
      appendRegionLoop lt sa ff bs false items paras fu ts =
        paras ++ appendRegionLoop lt sa ff bs false items [] fu ts
  | [], paras, fu, ts => by
    rw [appendRegionLoop, appendRegionLoop]
    simp
  | (lvl, tx, st) :: rest, paras, fu, ts => by
    rw [appendRegionLoop, appendRegionLoop]
    rw [if_neg (show ¬(false = true ∧ fu = false ∧ paras ≠ []) from by simp),
      if_neg (show ¬(false = true ∧ fu = false ∧ ([] : List Para) ≠ []) from by simp)]
    rw [appendRegionLoop_false_append lt sa ff bs rest (paras ++ [_]) fu _,
      appendRegionLoop_false_append lt sa ff bs rest ([] ++ [_]) fu _]
    simp [List.append_assoc]

theorem appendRegionLoop_false_cons (lt : String) (sa : Int)
    (ff : Option String) (bs : Option Nat) (lvl : Nat) (tx : String) (st : Style)
    (rest : List (Nat × String × Style)) (fu ts : Bool) :
    appendRegionLoop lt sa ff bs false ((lvl, tx, st) :: rest) [] fu ts =
      renderItem lvl tx st lt
          (if lvl = 0 ∧ ts = false then some sa else none) ff bs defaultPara ::
        appendRegionLoop lt sa ff bs false rest [] fu
          (if lt = "number" ∧ lvl = 0 ∧ ts = false then true else ts) := by
  rw [appendRegionLoop]
  rw [if_neg (show ¬(false = true ∧ fu = false ∧ ([] : List Para) ≠ []) from by simp)]
  rw [appendRegionLoop_false_append lt sa ff bs rest ([] ++ [_]) fu _]
  simp

theorem appendRegionLoop_false_length (lt : String) (sa : Int)
    (ff : Option String) (bs : Option Nat) :
    ∀ (items : List (Nat × String × Style)) (fu ts : Bool),
      (appendRegionLoop lt sa ff bs false items [] fu ts).length = items.length
  | [], _, _ => by rw [appendRegionLoop]; rfl
  | (lvl, tx, st) :: rest, fu, ts => by
    rw [appendRegionLoop_false_cons]
    simp [appendRegionLoop_false_length lt sa ff bs rest fu _]

theorem appendRegionLoop_number_fmt (sa : Int) (ff : Option String)
    (bs : Option Nat) :
    ∀ (items : List (Nat × String × Style)) (ts : Bool) (i : Nat),
      i < items.length →
      ((appendRegionLoop "number" sa ff bs false items [] false ts).get? i).map
          Para.fmt =
        some (ListFmt.buAutoNum "arabicPeriod"
          (if itemLevel items i = some 0 ∧ ts = false ∧
              (∀ j, j < i → itemLevel items j ≠ some 0)
           then some sa else none))
  | [], ts, i, hi => by simp at hi
  | (lvl, tx, st) :: rest, ts, i, hi => by
    rw [appendRegionLoop_false_cons]
    have hred : ("number" = "number" ∧ lvl = 0 ∧ ts = false) ↔ (lvl = 0 ∧ ts = false) := by
      simp
    rw [if_congr hred rfl rfl]
    cases i with
    | zero =>
      have hc : (itemLevel ((lvl, tx, st) :: rest) 0 = some 0 ∧ ts = false ∧
          (∀ j, j < 0 → itemLevel ((lvl, tx, st) :: rest) j ≠ some 0)) ↔
          (lvl = 0 ∧ ts = false) := by
        simp [itemLevel]
      rw [if_congr hc rfl rfl]
      simp [List.get?, renderItem_fmt_number]
    | succ i =>
      have hi2 : i < rest.length := by simpa using hi
      simp only [List.get?]
      have hshift : ∀ j, itemLevel ((lvl, tx, st) :: rest) (j + 1) = itemLevel rest j :=
        fun j => rfl
      by_cases h0 : lvl = 0 ∧ ts = false
      · rw [if_pos h0, appendRegionLoop_number_fmt sa ff bs rest true i hi2]
        have hc2 : ¬ (itemLevel ((lvl, tx, st) :: rest) (i + 1) = some 0 ∧ ts = false ∧
            (∀ j, j < i + 1 → itemLevel ((lvl, tx, st) :: rest) j ≠ some 0)) := by
          rintro ⟨-, -, hall⟩
          exact hall 0 (Nat.succ_pos i) (by simp [itemLevel, h0.1])
        rw [if_neg (by simp), if_neg hc2]
      · rw [if_neg h0, appendRegionLoop_number_fmt sa ff bs rest ts i hi2]
        have hcond : (itemLevel rest i = some 0 ∧ ts = false ∧
            (∀ j, j < i → itemLevel rest j ≠ some 0)) ↔
            (itemLevel ((lvl, tx, st) :: rest) (i + 1) = some 0 ∧ ts = false ∧
             (∀ j, j < i + 1 → itemLevel ((lvl, tx, st) :: rest) j ≠ some 0)) := by
          rw [hshift]
          constructor
          · rintro ⟨ha, hts, hall⟩
            refine ⟨ha, hts, fun j hj => ?_⟩
            cases j with
            | zero =>
              intro hj0
              have hl0 : lvl = 0 := by simpa [itemLevel] using hj0
              exact h0 ⟨hl0, hts⟩
            | succ j =>
              rw [hshift]
              exact hall j (by omega)
          · rintro ⟨ha, hts, hall⟩
            refine ⟨ha, hts, fun j hj => ?_⟩
            have hj1 := hall (j + 1) (by omega)
            rwa [hshift] at hj1
        rw [if_congr hcond rfl rfl]

/-- **C7.**  For a `number` region rendered by `_append_region_paragraphs`
(in append mode, as the right-region path calls it), the `start_at` value is
attached only to the paragraph of the first level-0 item of the flattened
item sequence; every other item — nested items at level ≥ 1 and later
level-0 items alike — gets true auto-numbering (`a:buAutoNum`) with no
restart value.  Pre-existing paragraphs are untouched. -/
theorem numbering_start_at_only_first_level0 (tf : TextFrame) (region : Region)
    (defaults : Defaults) (vtab : List (String × String))
    (hnum : effListType region defaults = "number") :
    ((appendRegionParagraphs tf region defaults vtab false).paras.length =
      tf.paras.length + (flattenNodesTop vtab region.bullets).length) ∧
    (∀ i, i < tf.paras.length →
      (appendRegionParagraphs tf region defaults vtab false).paras.get? i =
        tf.paras.get? i) ∧
    (∀ i, i < (flattenNodesTop vtab region.bullets).length →
      ((appendRegionParagraphs tf region defaults vtab false).paras.get?
          (tf.paras.length + i)).map Para.fmt =
        some (ListFmt.buAutoNum "arabicPeriod"
          (if itemLevel (flattenNodesTop vtab region.bullets) i = some 0 ∧
              (∀ j, j < i →
                itemLevel (flattenNodesTop vtab region.bullets) j ≠ some 0)
           then some (effStartAt region) else none))) := by
  have hout : (appendRegionParagraphs tf region defaults vtab false).paras =
      tf.paras ++ appendRegionLoop (effListType region defaults) (effStartAt region)
        defaults.font_family defaults.body_size_pt false
        (flattenNodesTop vtab region.bullets) [] false false := by
    rw [appendRegionParagraphs]
    exact appendRegionLoop_false_append _ _ _ _ _ _ _ _
  refine ⟨?_, ?_, ?_⟩
  · rw [hout, List.length_append, appendRegionLoop_false_length]
  · intro i hi
    rw [hout, List.get?_append hi]
  · intro i hi
    rw [hout, hnum]
    have hlen := appendRegionLoop_false_length "number" (effStartAt region)
      defaults.font_family defaults.body_size_pt
      (flattenNodesTop vtab region.bullets) false false
    rw [List.get?_append_right (by omega), Nat.add_sub_cancel_left]
    rw [appendRegionLoop_number_fmt _ _ _ _ _ i hi]
    have hsimp : (itemLevel (flattenNodesTop vtab region.bullets) i = some 0 ∧
        false = false ∧
        (∀ j, j < i → itemLevel (flattenNodesTop vtab region.bullets) j ≠ some 0)) ↔
        (itemLevel (flattenNodesTop vtab region.bullets) i = some 0 ∧
         (∀ j, j < i → itemLevel (flattenNodesTop vtab region.bullets) j ≠ some 0)) := by
      simp
    rw [if_congr hsimp rfl rfl]

/-- Witness for `numbering_start_at_only_first_level0`, at the spec\x27s own
numbering example. -/
theorem numbering_start_at_only_first_level0_witness :
    ((appendRegionParagraphs egTF egRegion egDefaults [] false).paras.length =
      egTF.paras.length + (flattenNodesTop [] egRegion.bullets).length) ∧
    (∀ i, i < egTF.paras.length →
      (appendRegionParagraphs egTF egRegion egDefaults [] false).paras.get? i =
        egTF.paras.get? i) ∧
    (∀ i, i < (flattenNodesTop [] egRegion.bullets).length →
      ((appendRegionParagraphs egTF egRegion egDefaults [] false).paras.get?
          (egTF.paras.length + i)).map Para.fmt =
        some (ListFmt.buAutoNum "arabicPeriod"
          (if itemLevel (flattenNodesTop [] egRegion.bullets) i = some 0 ∧
              (∀ j, j < i →
                itemLevel (flattenNodesTop [] egRegion.bullets) j ≠ some 0)
           then some (effStartAt egRegion) else none))) :=
  numbering_start_at_only_first_level0 egTF egRegion egDefaults [] rfl

theorem modifyNth_get?_ne {α : Type} (f : α → α) :
    ∀ (i j : Nat) (l : List α), j ≠ i →
      (modifyNth f i l).get? j = l.get? j
  | _, _, [], _ => by simp [modifyNth]
  | 0, j, a :: as, h => by
    cases j with
    | zero => exact absurd rfl h
    | succ j => simp [modifyNth, List.get?]
  | i + 1, j, a :: as, h => by
    cases j with
    | zero => simp [modifyNth, List.get?]
    | succ j => simpa [modifyNth, List.get?] using
        modifyNth_get?_ne f i j as (by omega)

theorem modifyNth_get?_eq {α : Type} (f : α → α) :
    ∀ (i : Nat) (l : List α), (modifyNth f i l).get? i = (l.get? i).map f
  | _, [] => by simp [modifyNth]
  | 0, a :: as => by simp [modifyNth, List.get?]
  | i + 1, a :: as => by simpa [modifyNth, List.get?] using modifyNth_get?_eq f i as

/-- The autofit pass only touches bodyPr, wrap, auto-size and runs: the
paragraph texts and levels survive it. -/
theorem finalize_textLevel (fits : Nat → Bool) (tf : TextFrame)
    (tsp : Option Nat) (ff : Option String) :
    (finalizeTextFrameAutofit fits tf tsp ff).paras.map (fun p => (p.text, p.level)) =
      tf.paras.map (fun p => (p.text, p.level)) := by
  simp only [finalizeTextFrameAutofit, fitText, List.map_map]
  apply List.map_congr_left
  intro p _
  rfl

theorem renderItem_textLevel (lvl : Nat) (tx : String) (st : Style) (lt : String)
    (so : Option Int) (ff : Option String) (bs : Option Nat) (base : Para) :
    (renderItem lvl tx st lt so ff bs base).text = tx ∧
    (renderItem lvl tx st lt so ff bs base).level = lvl := by
  simp only [renderItem]
  split <;> exact ⟨rfl, rfl⟩

theorem appendRegionLoop_false_textLevel (lt : String) (sa : Int)
    (ff : Option String) (bs : Option Nat) :
    ∀ (items : List (Nat × String × Style)) (fu ts : Bool),
      (appendRegionLoop lt sa ff bs false items [] fu ts).map
          (fun p => (p.text, p.level)) =
        items.map (fun it => (it.2.1, it.1))
  | [], _, _ => by rw [appendRegionLoop]; rfl
  | (lvl, tx, st) :: rest, fu, ts => by
    rw [appendRegionLoop_false_cons]
    have hhead := renderItem_textLevel lvl tx st lt
      (if lvl = 0 ∧ ts = false then some sa else none) ff bs defaultPara
    simp [appendRegionLoop_false_textLevel lt sa ff bs rest fu _, hhead.1, hhead.2]

theorem addSpacer_textLevel (tf : TextFrame) :
    (addSpacer tf).paras.map (fun p => (p.text, p.level)) =
      tf.paras.map (fun p => (p.text, p.level)) ++ [("", 0)] := by
  simp [addSpacer, paraSetText, setNoBullets, defaultPara]

theorem appendRegionParagraphs_textLevel (tf : TextFrame) (region : Region)
    (defaults : Defaults) (vtab : List (String × String)) :
    (appendRegionParagraphs tf region defaults vtab false).paras.map
        (fun p => (p.text, p.level)) =
      tf.paras.map (fun p => (p.text, p.level)) ++
        (flattenNodesTop vtab region.bullets).map (fun it => (it.2.1, it.1)) := by
  rw [appendRegionParagraphs]
  simp only []
  rw [appendRegionLoop_false_append, List.map_append,
    appendRegionLoop_false_textLevel]

/-- **C1 (amended).**  The right region is always appended to the main
(largest-area) body box after a blank, bulletless spacer paragraph:
`_choose_main_and_secondary_text` returns `None` for the secondary by
design, so the "write directly into a distinct second body placeholder"
branch is dead — every shape other than the main box is untouched, even when
a genuinely distinct second body placeholder exists. -/
theorem right_region_always_appended_to_main (fits : Nat → Bool) (slide : Slide)
    (reg : Region) (defaults : Defaults) (vtab : List (String × String)) (mi : Nat)
    (hmain : (chooseMainAndSecondary slide).1 = some mi) :
    (chooseMainAndSecondary slide).2 = none ∧
    (∀ j, j ≠ mi →
      (renderRightRegion fits slide (some reg) defaults vtab).shapes.get? j =
        slide.shapes.get? j) ∧
    (((renderRightRegion fits slide (some reg) defaults vtab).shapes.get? mi).map
        (fun s => s.tf.paras.map (fun p => (p.text, p.level))) =
      (slide.shapes.get? mi).map (fun s =>
        s.tf.paras.map (fun p => (p.text, p.level)) ++
          ("", 0) :: (flattenNodesTop vtab reg.bullets).map
            (fun it => (it.2.1, it.1)))) := by
  have hsec : (chooseMainAndSecondary slide).2 = none := rfl
  have hpair : chooseMainAndSecondary slide = (some mi, none) := by
    rcases hcm : chooseMainAndSecondary slide with ⟨a, b⟩
    rw [hcm] at hmain hsec
    simp only at hmain hsec
    rw [hmain, hsec]
  have hrr : renderRightRegion fits slide (some reg) defaults vtab =
      { slide with shapes := modifyNth (fun s =>
          { s with tf := (finalizeTextFrameAutofit fits
              (appendRegionParagraphs (addSpacer s.tf) reg defaults vtab false)
              defaults.body_size_pt defaults.font_family) }) mi slide.shapes } := by
    rw [renderRightRegion, hpair]
  refine ⟨hsec, ?_, ?_⟩
  · intro j hj
    rw [hrr]
    exact modifyNth_get?_ne _ _ _ _ hj
  · rw [hrr]
    dsimp only
    rw [modifyNth_get?_eq, Option.map_map]
    cases ho : slide.shapes.get? mi with
    | none => rfl
    | some s =>
      simp only [Option.map_some', Function.comp_apply]
      rw [finalize_textLevel, appendRegionParagraphs_textLevel, addSpacer_textLevel]
      simp

/-- A concrete slide with a title and two genuinely distinct text-capable
body placeholders (the first larger). -/
def twoBodySlide : Slide :=
  { shapes := [
    { phType := some PhType.TITLE, hasTextFrame := true, left := 0, top := 0,
      width := 50, height := 10,
      tf := { paras := [], bodyPr := [], autoSize := none, wordWrap := none } },
    { phType := some PhType.BODY, hasTextFrame := true, left := 0, top := 20,
      width := 200, height := 100,
      tf := { paras := [], bodyPr := [], autoSize := none, wordWrap := none } },
    { phType := some PhType.BODY, hasTextFrame := true, left := 210, top := 20,
      width := 100, height := 100,
      tf := { paras := [], bodyPr := [], autoSize := none, wordWrap := none } }] }

/-- A one-bullet right region. -/
def rRegion : Region :=
  { list_type := none, start_at := none, bullets := [BulletNode.mk "R" noStyle []] }

/-- Empty defaults. -/
def emptyDefaults : Defaults :=
  { list_type := none, font_family := none, body_size_pt := none,
    title_size_pt := none }

/-- Witness for `right_region_always_appended_to_main` at the concrete
two-body slide. -/
theorem right_region_always_appended_to_main_witness :
    (chooseMainAndSecondary twoBodySlide).2 = none ∧
    (∀ j, j ≠ 1 →
      (renderRightRegion (fun _ => true) twoBodySlide (some rRegion) emptyDefaults
        []).shapes.get? j = twoBodySlide.shapes.get? j) ∧
    (((renderRightRegion (fun _ => true) twoBodySlide (some rRegion) emptyDefaults
          []).shapes.get? 1).map
        (fun s => s.tf.paras.map (fun p => (p.text, p.level))) =
      (twoBodySlide.shapes.get? 1).map (fun s =>
        s.tf.paras.map (fun p => (p.text, p.level)) ++
          ("", 0) :: (flattenNodesTop [] rRegion.bullets).map
            (fun it => (it.2.1, it.1)))) :=
  right_region_always_appended_to_main (fun _ => true) twoBodySlide rRegion
    emptyDefaults [] 1 (by decide)

/-- **C1 (counterexample).**  The claim "when the instantiated slide has a
genuinely distinct second body placeholder, the renderer writes the right
region's content directly into that second placeholder" is false on the
code: `twoBodySlide` has a second, distinct, text-capable body placeholder
(shape 2), yet rendering the right region leaves shape 2 untouched and
appends the content to the main box (shape 1) after the blank spacer
paragraph. -/
theorem right_region_not_into_second_placeholder :
    ((twoBodySlide.shapes.get? 2).map (fun s => (s.phType, s.hasTextFrame)) =
      some (some PhType.BODY, true)) ∧
    ((renderRightRegion (fun _ => true) twoBodySlide (some rRegion) emptyDefaults
        []).shapes.get? 2 = twoBodySlide.shapes.get? 2) ∧
    (((renderRightRegion (fun _ => true) twoBodySlide (some rRegion) emptyDefaults
          []).shapes.get? 1).map
        (fun s => s.tf.paras.map (fun p => (p.text, p.level))) =
      some [("", 0), ("R", 0)]) := by
  have hpair : chooseMainAndSecondary twoBodySlide = (some 1, none) := by decide
  have hrr : renderRightRegion (fun _ => true) twoBodySlide (some rRegion)
      emptyDefaults [] =
      { twoBodySlide with shapes := (modifyNth (fun s =>
          { s with tf := (finalizeTextFrameAutofit (fun _ => true)
              (appendRegionParagraphs (addSpacer s.tf) rRegion emptyDefaults [] false)
              emptyDefaults.body_size_pt emptyDefaults.font_family) }) 1
          twoBodySlide.shapes) } := by
    rw [renderRightRegion, hpair]
  have hR : expandVars "R" [] = "R" := by
    rw [expandVars, show "R".toList = ['R'] from rfl,
      expandChars_cons_ne _ _ _ (by decide), expandChars_nil]
  have hflat : (flattenNodesTop [] rRegion.bullets).map (fun it => (it.2.1, it.1)) =
      [("R", 0)] := by
    rw [show rRegion.bullets = [BulletNode.mk "R" noStyle []] from rfl,
      flattenNodesTop, flattenNodes, flattenNode, flattenNodes, flattenNodes]
    simp [hR]
  refine ⟨by decide, ?_, ?_⟩
  · rw [hrr]
    exact modifyNth_get?_ne _ _ _ _ (by decide)
  · rw [hrr]
    dsimp only
    rw [modifyNth_get?_eq, Option.map_map]
    rw [show twoBodySlide.shapes.get? 1 = some
      { phType := some PhType.BODY, hasTextFrame := true, left := 0, top := 20,
        width := 200, height := 100,
        tf := { paras := [], bodyPr := [], autoSize := none, wordWrap := none } }
      from rfl]
    simp only [Option.map_some', Function.comp_apply]
    rw [finalize_textLevel, appendRegionParagraphs_textLevel, addSpacer_textLevel,
      hflat]
    simp

/-- Witness for `layout_resolution_by_name` at a concrete input: a master with
two layouts named "Two Content"; non-strict resolution picks the first. -/
theorem layout_resolution_by_name_witness :
    resolveLayout
        [{ name := "Office Theme",
           layouts := [{ name := "Title Slide", placeholders := [] },
                       { name := "Two  Content", placeholders := [] },
                       { name := "Two Content", placeholders := [] }] }]
        { layout := some "Two Content", layout_id := none, like_slide := none }
        none
        { layout_aliases := [], default_layout := none, fallback_layout := none }
        false = Except.ok (0, 1, { name := "Two  Content", placeholders := [] }) :=
  (layout_resolution_by_name _ _ none _ "Two Content" rfl rfl (by decide)
      (by decide)).1
    (0, 1, { name := "Two  Content", placeholders := [] })
    [(0, 2, { name := "Two Content", placeholders := [] })] (by decide)

/-! ## JSON model (C3, C10)

`Json` is the JSON-serializable fragment the claims quantify over, with
integer numbers (the float spelling plays no role in the cleaner's
behaviour).  `dumpsJson` mirrors `json.dumps` with its defaults:
`ensure_ascii=True`, separators `", "` and `": "`, insertion order kept. -/

inductive Json where
  | null
  | bool (b : Bool)
  | num (n : Int)
  | str (s : String)
  | arr (xs : List Json)
  | obj (kvs : List (String × Json))

/-- The decimal digit character for `n < 10`. -/
def digitChar (n : Nat) : Char := Char.ofNat (48 + n)

/-- Decimal digits of `n`, most significant first; the fuel argument keeps
the recursion structural and `n + 1` fuel always suffices. -/
def natCharsAux : Nat → Nat → List Char → List Char
  | 0, _, acc => acc
  | fuel + 1, n, acc =>
    if n < 10 then digitChar n :: acc
    else natCharsAux fuel (n / 10) (digitChar (n % 10) :: acc)

def natChars (n : Nat) : List Char := natCharsAux (n + 1) n []

/-- Python `repr` of an `int`. -/
def intChars (i : Int) : List Char :=
  if i < 0 then '-' :: natChars (-i).toNat else natChars i.toNat

/-- Lowercase hex digit. -/
def hexDigit (n : Nat) : Char :=
  if n < 10 then digitChar n else Char.ofNat (87 + n)

/-- Four lowercase hex digits. -/
def hex4 (n : Nat) : List Char :=
  [hexDigit (n / 4096 % 16), hexDigit (n / 256 % 16), hexDigit (n / 16 % 16),
   hexDigit (n % 16)]

/-- `json.dumps` escaping of one character (`ensure_ascii=True`): the two-char
escapes, printable ASCII verbatim, everything else `\uXXXX` (with surrogate
pairs beyond the BMP). -/
def escapeChar (c : Char) : List Char :=
  if c = '"' then ['\\', '"']
  else if c = '\\' then ['\\', '\\']
  else if c = '\n' then ['\\', 'n']
  else if c = '\r' then ['\\', 'r']
  else if c = '\t' then ['\\', 't']
  else if c = '\x08' then ['\\', 'b']
  else if c = '\x0c' then ['\\', 'f']
  else if 0x20 ≤ c.toNat ∧ c.toNat ≤ 0x7e then [c]
  else if c.toNat < 0x10000 then '\\' :: 'u' :: hex4 c.toNat
  else
    ('\\' :: 'u' :: hex4 (0xd800 + (c.toNat - 0x10000) / 1024)) ++
      ('\\' :: 'u' :: hex4 (0xdc00 + (c.toNat - 0x10000) % 1024))

def escapeChars : List Char → List Char
  | [] => []
  | c :: rest => escapeChar c ++ escapeChars rest

/-- A serialized JSON string literal. -/
def dumpStr (s : String) : List Char :=
  '"' :: (escapeChars s.toList ++ ['"'])

mutual
/-- `json.dumps` with default arguments, as a character list. -/
def dumpsJson : Json → List Char
  | .null => "null".toList
  | .bool true => "true".toList
  | .bool false => "false".toList
  | .num n => intChars n
  | .str s => dumpStr s
  | .arr [] => ['[', ']']
  | .arr (x :: xs) => '[' :: (dumpsJson x ++ (dumpsArr xs ++ [']']))
  | .obj [] => ['{', '}']
  | .obj ((k, v) :: kvs) =>
    '{' :: (dumpStr k ++ ':' :: ' ' :: (dumpsJson v ++ (dumpsObj kvs ++ ['}'])))

/-- `", "`-separated remaining array elements. -/
def dumpsArr : List Json → List Char
  | [] => []
  | x :: xs => ',' :: ' ' :: (dumpsJson x ++ dumpsArr xs)

/-- `", "`-separated remaining object members. -/
def dumpsObj : List (String × Json) → List Char
  | [] => []
  | (k, v) :: kvs => ',' :: ' ' :: (dumpStr k ++ ':' :: ' ' :: (dumpsJson v ++ dumpsObj kvs))
end

/-! ### The lenient cleaner (`clean_json_lenient`, powerbb_v1.py lines
1426-1456)

Each `re.sub` pass is modelled by a structural scanner with the same
leftmost, non-overlapping match semantics; comments in each definition note
the regex it implements. -/

/-- `s.lstrip("﻿")`. -/
def lstripBOM (cs : List Char) : List Char :=
  cs.dropWhile (fun c => c = Char.ofNat 0xfeff)

/-- The optional case-insensitive `json` tag right after an opening fence. -/
def stripFenceJson : List Char → List Char
  | d1 :: d2 :: d3 :: d4 :: r =>
    if d1.toLower = 'j' ∧ d2.toLower = 's' ∧ d3.toLower = 'o' ∧ d4.toLower = 'n'
    then r else d1 :: d2 :: d3 :: d4 :: r
  | cs => cs

/-- The fence-opening match after leading whitespace has been dropped:
`some` of the remainder on a match, `none` otherwise. -/
def stripFenceStartAux : List Char → Option (List Char)
  | c1 :: c2 :: c3 :: rest =>
    if c1 = Char.ofNat 96 ∧ c2 = Char.ofNat 96 ∧ c3 = Char.ofNat 96 then
      some ((stripFenceJson rest).dropWhile pyIsSpace)
    else none
  | _ => none

/-- `re.sub(r'^\s*三TICKS(?:json)?\s*', '', s, flags=IGNORECASE)` where 三TICKS
is three backtick characters: a single anchored match at the start. -/
def stripFenceStart (cs : List Char) : List Char :=
  (stripFenceStartAux (cs.dropWhile pyIsSpace)).getD cs

/-- The fence-closing match after leading whitespace has been dropped. -/
def fenceEndCore : List Char → Bool
  | c1 :: c2 :: c3 :: rest =>
    (c1 = Char.ofNat 96 && c2 = Char.ofNat 96 && c3 = Char.ofNat 96) &&
      rest.all pyIsSpace
  | _ => false

/-- Does this entire suffix match `\s*三TICKS\s*$`? -/
def matchFenceEnd (cs : List Char) : Bool :=
  fenceEndCore (cs.dropWhile pyIsSpace)

/-- `re.sub(r'\s*三TICKS\s*$', '', s)`: remove the leftmost suffix matching
the pattern (the `$` anchor makes any match a suffix; the input has already
been stripped, so `$` is the true end). -/
def stripFenceEnd : List Char → List Char
  | [] => []
  | c :: rest => if matchFenceEnd (c :: rest) then [] else c :: stripFenceEnd rest

/-- Scanner state for `re.sub(r'(?m)^\s*//.*$', '', s)`: at a line start with
pending (not yet emitted) whitespace, mid-line, or inside a matched
comment. -/
inductive SlcMode where
  | start (pending : List Char)
  | startSlash (pending : List Char)
  | mid
  | com

/-- `(?m)^\s*//.*$`: from a line start, greedy whitespace (which may span
blank lines) followed by `//` matches through the end of that line; the
newline itself survives.  If the first non-whitespace characters are not
`//`, no match can start anywhere inside that whitespace run. -/
def slc : SlcMode → List Char → List Char
  | .start pending, [] => pending.reverse
  | .start pending, c :: rest =>
    if pyIsSpace c then slc (.start (c :: pending)) rest
    else if c = '/' then slc (.startSlash pending) rest
    else pending.reverse ++ c :: slc .mid rest
  | .startSlash pending, [] => pending.reverse ++ ['/']
  | .startSlash pending, c :: rest =>
    if c = '/' then slc .com rest
    else if c = '\n' then pending.reverse ++ '/' :: c :: slc (.start []) rest
    else pending.reverse ++ '/' :: c :: slc .mid rest
  | .mid, [] => []
  | .mid, c :: rest =>
    if c = '\n' then c :: slc (.start []) rest else c :: slc .mid rest
  | .com, [] => []
  | .com, c :: rest =>
    if c = '\n' then c :: slc (.start []) rest else slc .com rest

def stripLineComments (cs : List Char) : List Char := slc (.start []) cs

/-- Is there a `*/` somewhere ahead?  (An unclosed `/*` is not a match.) -/
def hasClose : List Char → Bool
  | [] => false
  | '*' :: '/' :: _ => true
  | _ :: rest => hasClose rest

/-- `re.sub(r'/\*.*?\*/', '', s, flags=DOTALL)`: from each `/*` with a later
`*/`, drop through the nearest `*/` (non-greedy). -/
def sbc : Bool → List Char → List Char
  | _, [] => []
  | false, '/' :: '*' :: rest =>
    if hasClose rest then sbc true rest else '/' :: '*' :: rest
  | false, c :: rest => c :: sbc false rest
  | true, '*' :: '/' :: rest => sbc false rest
  | true, _ :: rest => sbc true rest

def stripBlockComments (cs : List Char) : List Char := sbc false cs

/-- Scanner state for `re.sub(r',\s*([\]}])', r'\1', s)`. -/
inductive StcMode where
  | norm
  | afterComma (pendingWs : List Char)

/-- `,\s*([\]}])`: a comma, greedy whitespace, then `]` or `}` collapses to
the bracket alone; otherwise everything is emitted unchanged and scanning
resumes at the character that broke the pattern. -/
def stc : StcMode → List Char → List Char
  | .norm, [] => []
  | .norm, c :: rest =>
    if c = ',' then stc (.afterComma []) rest else c :: stc .norm rest
  | .afterComma pend, [] => ',' :: pend.reverse
  | .afterComma pend, c :: rest =>
    if pyIsSpace c then stc (.afterComma (c :: pend)) rest
    else if c = ']' ∨ c = '}' then c :: stc .norm rest
    else if c = ',' then (',' :: pend.reverse) ++ stc (.afterComma []) rest
    else (',' :: pend.reverse) ++ c :: stc .norm rest

def stripTrailingCommas (cs : List Char) : List Char := stc .norm cs

/-- The characters that may legally follow a backslash in JSON
(`" \ / b f n r t u`). -/
def jsonEscapeOK (c : Char) : Bool :=
  c = '"' || c = '\\' || c = '/' || c = 'b' || c = 'f' || c = 'n' || c = 'r' ||
    c = 't' || c = 'u'

/-- `re.sub(r'\\(?!["\\/bfnrtu])', '', s)`: a backslash not followed by a
legal escape character (including a backslash at the very end) is removed;
a kept backslash's follower is itself rescanned. -/
def rmBadBackslashes : List Char → List Char
  | [] => []
  | ['\\'] => []
  | '\\' :: c :: rest =>
    if jsonEscapeOK c then '\\' :: rmBadBackslashes (c :: rest)
    else rmBadBackslashes (c :: rest)
  | c :: rest => c :: rmBadBackslashes rest

/-- `re.sub(r'\r\n?', '\n', s)`. -/
def normalizeCRLF : List Char → List Char
  | [] => []
  | '\r' :: '\n' :: rest => '\n' :: normalizeCRLF rest
  | '\r' :: rest => '\n' :: normalizeCRLF rest
  | c :: rest => c :: normalizeCRLF rest

/-- Embedding of `clean_json_lenient`: the seven passes in source order. -/
def cleanJsonLenient (raw : String) : String :=
  String.mk (normalizeCRLF (rmBadBackslashes (stripTrailingCommas
    (stripBlockComments (stripLineComments (stripFenceEnd (stripFenceStart
      (pyStrip (lstripBOM raw.toList)))))))))

/-! ### A standard JSON parser (for evaluating the round trip) -/

/-- JSON's own whitespace. -/
def jsonWs (c : Char) : Bool :=
  c = ' ' || c = '\t' || c = '\n' || c = '\r'

/-- Value of a hex digit (0 for non-hex input; guarded by `isHexDig`). -/
def hexVal (c : Char) : Nat :=
  if '0' ≤ c ∧ c ≤ '9' then c.toNat - 48
  else if 'a' ≤ c ∧ c ≤ 'f' then c.toNat - 87
  else if 'A' ≤ c ∧ c ≤ 'F' then c.toNat - 55
  else 0

/-- Hex-digit test. -/
def isHexDig (c : Char) : Bool :=
  c.isDigit || ('a' ≤ c && c ≤ 'f') || ('A' ≤ c && c ≤ 'F')

/-- Leading digit run as a number, failing on an empty run or a
fraction/exponent continuation. -/
def parseNumDigits (cs : List Char) : Option (Nat × List Char) :=
  let ds := cs.takeWhile Char.isDigit
  let rest := cs.dropWhile Char.isDigit
  if ds = [] then none
  else match rest with
    | '.' :: _ => none
    | 'e' :: _ => none
    | 'E' :: _ => none
    | _ => some (ds.foldl (fun acc c => acc * 10 + (c.toNat - 48)) 0, rest)

/-- Decode the body of a string literal (after the opening quote), returning
the content and the remainder after the closing quote. -/
def parseStrChars : List Char → Option (List Char × List Char)
  | [] => none
  | '"' :: rest => some ([], rest)
  | '\\' :: e :: rest =>
    if e = 'u' then
      match rest with
      | h1 :: h2 :: h3 :: h4 :: rest2 =>
        if isHexDig h1 && isHexDig h2 && isHexDig h3 && isHexDig h4 then
          let v := 4096 * hexVal h1 + 256 * hexVal h2 + 16 * hexVal h3 + hexVal h4
          if 0xd800 ≤ v ∧ v ≤ 0xdfff then none
          else (parseStrChars rest2).map (fun p => (Char.ofNat v :: p.1, p.2))
        else none
      | _ => none
    else
      match (if e = '"' then some '"'
             else if e = '\\' then some '\\'
             else if e = '/' then some '/'
             else if e = 'b' then some '\x08'
             else if e = 'f' then some '\x0c'
             else if e = 'n' then some '\n'
             else if e = 'r' then some '\r'
             else if e = 't' then some '\t'
             else none) with
      | some d => (parseStrChars rest).map (fun p => (d :: p.1, p.2))
      | none => none
  | c :: rest => (parseStrChars rest).map (fun p => (c :: p.1, p.2))

mutual
/-- Recursive-descent JSON value parser; the fuel (amply seeded with the
input length) keeps it structural.  Integer numbers only: a fraction or an
exponent is out of the modelled fragment and fails. -/
def parseVal : Nat → List Char → Option (Json × List Char)
  | 0, _ => none
  | fuel + 1, cs =>
    match cs.dropWhile jsonWs with
    | 'n' :: 'u' :: 'l' :: 'l' :: rest => some (.null, rest)
    | 't' :: 'r' :: 'u' :: 'e' :: rest => some (.bool true, rest)
    | 'f' :: 'a' :: 'l' :: 's' :: 'e' :: rest => some (.bool false, rest)
    | '"' :: rest =>
      (parseStrChars rest).map (fun p => (.str (String.mk p.1), p.2))
    | '[' :: rest =>
      (match rest.dropWhile jsonWs with
       | ']' :: rest2 => some (.arr [], rest2)
       | _ => (parseArrItems fuel rest).map (fun p => (.arr p.1, p.2)))
    | '{' :: rest =>
      (match rest.dropWhile jsonWs with
       | '}' :: rest2 => some (.obj [], rest2)
       | _ => (parseObjItems fuel rest).map (fun p => (.obj p.1, p.2)))
    | '-' :: rest =>
      (parseNumDigits rest).map (fun p => (.num (-(p.1 : Int)), p.2))
    | c :: rest =>
      if c.isDigit then
        (parseNumDigits (c :: rest)).map (fun p => (.num (p.1 : Int), p.2))
      else none
    | [] => none

/-- Comma-separated array elements up to the closing bracket. -/
def parseArrItems : Nat → List Char → Option (List Json × List Char)
  | 0, _ => none
  | fuel + 1, cs =>
    match parseVal fuel cs with
    | some (v, rest) =>
      (match rest.dropWhile jsonWs with
       | ',' :: rest2 => (parseArrItems fuel rest2).map (fun p => (v :: p.1, p.2))
       | ']' :: rest2 => some ([v], rest2)
       | _ => none)
    | none => none

/-- Comma-separated object members up to the closing brace. -/
def parseObjItems : Nat → List Char → Option (List (String × Json) × List Char)
  | 0, _ => none
  | fuel + 1, cs =>
    match cs.dropWhile jsonWs with
    | '"' :: rest =>
      match parseStrChars rest with
      | some (k, rest2) =>
        (match rest2.dropWhile jsonWs with
         | ':' :: rest3 =>
           (match parseVal fuel rest3 with
            | some (v, rest4) =>
              (match rest4.dropWhile jsonWs with
               | ',' :: rest5 =>
                 (parseObjItems fuel rest5).map
                   (fun p => ((String.mk k, v) :: p.1, p.2))
               | '}' :: rest5 => some ([(String.mk k, v)], rest5)
               | _ => none)
            | none => none)
         | _ => none)
      | none => none
    | _ => none
end

/-- `json.loads`: parse one value and require only whitespace after it. -/
def parseJson (s : String) : Option Json :=
  match parseVal (s.length + 1) s.toList with
  | some (v, rest) => if rest.dropWhile jsonWs = [] then some v else none
  | none => none

/-! ## Markdown-escape stripping (C10)

`_strip_md_escapes` (lines 1496-1505) is `re.sub(r"\\+([punct])", r"\1", s)`
for a fixed punctuation set; `_normalize_powerbb_strings` (lines 1523-1544)
applies it to string values under the human-facing keys, recursing
everywhere else; `_prepare_powerbb`/`create_ppt_from_powerbb` (lines 837-842,
1540-1544) always run it. -/

/-- The punctuation class of `_strip_md_escapes`'s regex:
`_[]()\x7b\x7d&%#@!+-=:;,.?<>^~|/`.  Note `*` is not in it. -/
def mdPunct (c : Char) : Bool :=
  c = '_' || c = '[' || c = ']' || c = '(' || c = ')' || c = '{' || c = '}' ||
  c = '&' || c = '%' || c = '#' || c = '@' || c = '!' || c = '+' || c = '-' ||
  c = '=' || c = ':' || c = ';' || c = ',' || c = '.' || c = '?' || c = '<' ||
  c = '>' || c = '^' || c = '~' || c = '|' || c = '/'

/-- The scanner of `re.sub(r"\\+([punct])", r"\1", s)`: `pending` counts
backslashes read so far in the current run; a run followed by a punctuation
character is deleted wholesale, any other run is emitted unchanged. -/
def smeGo (pending : Nat) : List Char → List Char
  | [] => List.replicate pending '\\'
  | '\\' :: rest => smeGo (pending + 1) rest
  | c :: rest =>
    if pending = 0 then c :: smeGo 0 rest
    else if mdPunct c then c :: smeGo 0 rest
    else List.replicate pending '\\' ++ c :: smeGo 0 rest

/-- Embedding of `_strip_md_escapes`. -/
def stripMdEscapes (s : String) : String :=
  String.mk (smeGo 0 s.toList)

/-- `TEXT_KEYS` of `_normalize_powerbb_strings`. -/
def TEXT_KEYS : List String :=
  ["title", "text", "notes", "speaker_notes", "footer", "header", "alt_text"]

mutual
/-- Embedding of `_normalize_powerbb_strings`: strip markdown escapes from
string values directly under a text key; recurse everywhere else. -/
def normalizePowerbbStrings : Json → Json
  | .obj kvs => .obj (normKVs kvs)
  | .arr xs => .arr (normArr xs)
  | .null => .null
  | .bool b => .bool b
  | .num n => .num n
  | .str s => .str s

def normArr : List Json → List Json
  | [] => []
  | x :: xs => normalizePowerbbStrings x :: normArr xs

def normKVs : List (String × Json) → List (String × Json)
  | [] => []
  | (k, v) :: kvs =>
    (if TEXT_KEYS.contains k then
       match v with
       | .str s => (k, Json.str (stripMdEscapes s))
       | other => (k, normalizePowerbbStrings other)
     else (k, normalizePowerbbStrings v)) :: normKVs kvs
end

/-- `_prepare_powerbb`: the sanitising copy `create_ppt_from_powerbb` always
makes (it calls with `normalize_escapes=True` unconditionally). -/
def preparePowerbb (pb : Json) (normalizeEscapes : Bool) : Json :=
  if normalizeEscapes then normalizePowerbbStrings pb else pb

/-! ### Character classes for the cleaner no-op theorem

`goodChar` (modelled from the spec's words for the amended claim) picks out
string characters that serialize to themselves and cannot collide with any
of the cleaner's patterns: printable ASCII that is not a quote, backslash,
asterisk, comma, or backtick.  `emitOK` is the corresponding guarantee on
every character the serializer emits (separators and quotes included). -/

def goodChar (c : Char) : Bool :=
  (0x20 ≤ c.toNat && c.toNat ≤ 0x7e) &&
    !(c = '"' || c = '\\' || c = '*' || c = ',' || c = Char.ofNat 96)

def emitOK (c : Char) : Bool :=
  (0x20 ≤ c.toNat && c.toNat ≤ 0x7e) &&
    !(c = '*' || c = '\\' || c = Char.ofNat 96)

mutual
/-- A JSON value all of whose strings (and keys) consist of `goodChar`s. -/
def goodJson : Json → Bool
  | .null => true
  | .bool _ => true
  | .num _ => true
  | .str s => s.toList.all goodChar
  | .arr xs => goodArr xs
  | .obj kvs => goodKVs kvs

def goodArr : List Json → Bool
  | [] => true
  | x :: xs => goodJson x && goodArr xs

def goodKVs : List (String × Json) → Bool
  | [] => true
  | (k, v) :: kvs => (k.toList.all goodChar && goodJson v) && goodKVs kvs
end

/-- First character of any serialized JSON value. -/
def valueStartB (c : Char) : Bool :=
  (48 ≤ c.toNat && c.toNat ≤ 57) || c = 'n' || c = 't' || c = 'f' || c = '-' ||
    c = '"' || c = '[' || c = '{'

/-- Last character of any serialized JSON value. -/
def valueEndB (c : Char) : Bool :=
  (48 ≤ c.toNat && c.toNat ≤ 57) || c = 'l' || c = 'e' || c = '"' || c = ']' ||
    c = '}'

/-- A prefix through which the trailing-comma scanner passes unchanged, for
any continuation. -/
def stcId (t : List Char) : Prop :=
  ∀ v, stc .norm (t ++ v) = t ++ stc .norm v

/-! ### Character-class facts -/

theorem emitOK_facts (c : Char) (h : emitOK c = true) :
    c ≠ '\n' ∧ c ≠ '\r' ∧ c ≠ Char.ofNat 0xfeff ∧ c ≠ '*' ∧ c ≠ '\\' ∧
      c ≠ Char.ofNat 96 := by
  refine ⟨?_, ?_, ?_, ?_, ?_, ?_⟩ <;> intro he <;> rw [he] at h <;>
    exact absurd h (by decide)

theorem pyIsSpace_toNat (c : Char) (h : pyIsSpace c = true) :
    c.toNat = 32 ∨ c.toNat = 9 ∨ c.toNat = 10 ∨ c.toNat = 13 ∨ c.toNat = 11 ∨
      c.toNat = 12 := by
  simp [pyIsSpace, or_assoc] at h
  rcases h with rfl | rfl | rfl | rfl | rfl | rfl <;> simp

theorem digit_not_ws (c : Char) (h1 : 48 ≤ c.toNat) (h2 : c.toNat ≤ 57) :
    pyIsSpace c = false := by
  cases hp : pyIsSpace c with
  | false => rfl
  | true => have := pyIsSpace_toNat c hp; omega

theorem digit_ne (c d : Char) (h1 : 48 ≤ c.toNat) (h2 : c.toNat ≤ 57)
    (hd : d.toNat < 48 ∨ 57 < d.toNat) : c ≠ d := by
  intro he
  subst he
  omega

theorem valueStartB_facts (c : Char) (h : valueStartB c = true) :
    pyIsSpace c = false ∧ c ≠ '/' ∧ c ≠ Char.ofNat 96 ∧ c ≠ ']' ∧ c ≠ '}' ∧
      c ≠ ',' := by
  simp [valueStartB, or_assoc] at h
  rcases h with ⟨h1, h2⟩ | rfl | rfl | rfl | rfl | rfl | rfl | rfl
  · exact ⟨digit_not_ws c h1 h2, digit_ne c '/' h1 h2 (by decide),
      digit_ne c (Char.ofNat 96) h1 h2 (by decide),
      digit_ne c ']' h1 h2 (by decide), digit_ne c '}' h1 h2 (by decide),
      digit_ne c ',' h1 h2 (by decide)⟩
  all_goals decide

theorem valueEndB_facts (c : Char) (h : valueEndB c = true) :
    pyIsSpace c = false := by
  simp [valueEndB, or_assoc] at h
  rcases h with ⟨h1, h2⟩ | rfl | rfl | rfl | rfl | rfl
  · exact digit_not_ws c h1 h2
  all_goals decide

theorem goodChar_emitOK (c : Char) (h : goodChar c = true) : emitOK c = true := by
  simp [goodChar] at h
  simp [emitOK]
  tauto

theorem goodChar_ne_comma (c : Char) (h : goodChar c = true) : c ≠ ',' := by
  intro he
  rw [he] at h
  exact absurd h (by decide)

/-! ### Decimal-digit rendering facts -/

theorem digitChar_bound (k : Nat) (h : k < 10) :
    48 ≤ (digitChar k).toNat ∧ (digitChar k).toNat ≤ 57 := by
  interval_cases k <;> decide

theorem natCharsAux_mem (fuel : Nat) :
    ∀ (n : Nat) (acc : List Char),
      (∀ c ∈ acc, 48 ≤ c.toNat ∧ c.toNat ≤ 57) →
      ∀ c ∈ natCharsAux fuel n acc, 48 ≤ c.toNat ∧ c.toNat ≤ 57 := by
  induction fuel with
  | zero => intro n acc hacc; simpa [natCharsAux] using hacc
  | succ m ih =>
    intro n acc hacc c hc
    rw [natCharsAux] at hc
    split at hc
    · rcases List.mem_cons.mp hc with rfl | hc
      · exact digitChar_bound n (by assumption)
      · exact hacc c hc
    · refine ih (n / 10) _ ?_ c hc
      intro d hd
      rcases List.mem_cons.mp hd with rfl | hd
      · exact digitChar_bound _ (Nat.mod_lt _ (by omega))
      · exact hacc d hd

theorem natChars_mem (n : Nat) :
    ∀ c ∈ natChars n, 48 ≤ c.toNat ∧ c.toNat ≤ 57 :=
  natCharsAux_mem (n + 1) n [] (by simp)

theorem natCharsAux_head (fuel : Nat) :
    ∀ (n : Nat) (acc : List Char), n < fuel →
      ∃ d tl, natCharsAux fuel n acc = d :: tl ∧ 48 ≤ d.toNat ∧ d.toNat ≤ 57 := by
  induction fuel with
  | zero => intro n acc h; omega
  | succ m ih =>
    intro n acc h
    by_cases hn : n < 10
    · rw [natCharsAux, if_pos hn]
      exact ⟨digitChar n, acc, rfl, digitChar_bound n hn⟩
    · rw [natCharsAux, if_neg hn]
      exact ih (n / 10) _ (by
        have := Nat.div_lt_self (show 0 < n by omega) (show 1 < 10 by omega)
        omega)

theorem natChars_head (n : Nat) :
    ∃ d tl, natChars n = d :: tl ∧ 48 ≤ d.toNat ∧ d.toNat ≤ 57 :=
  natCharsAux_head (n + 1) n [] (by omega)

theorem natChars_last (n : Nat) :
    ∃ e, (natChars n).getLast? = some e ∧ 48 ≤ e.toNat ∧ e.toNat ≤ 57 := by
  obtain ⟨d, tl, he, _, _⟩ := natChars_head n
  have hne : natChars n ≠ [] := by rw [he]; simp
  have h1 : (natChars n).getLast?.isSome := by
    rw [List.getLast?_isSome]; exact hne
  obtain ⟨e, hl⟩ := Option.isSome_iff_exists.mp h1
  have hmem := List.mem_of_mem_getLast? hl
  have hb := natChars_mem n e hmem
  exact ⟨e, hl, hb.1, hb.2⟩

theorem intChars_mem (i : Int) :
    ∀ c ∈ intChars i, c = '-' ∨ (48 ≤ c.toNat ∧ c.toNat ≤ 57) := by
  intro c hc
  unfold intChars at hc
  split at hc
  · rcases List.mem_cons.mp hc with rfl | hc
    · exact Or.inl rfl
    · exact Or.inr (natChars_mem _ c hc)
  · exact Or.inr (natChars_mem _ c hc)

theorem intChars_head (i : Int) :
    ∃ d tl, intChars i = d :: tl ∧ valueStartB d = true := by
  unfold intChars
  split
  · exact ⟨'-', _, rfl, by decide⟩
  · obtain ⟨d, tl, he, h1, h2⟩ := natChars_head i.toNat
    refine ⟨d, tl, he, ?_⟩
    simp only [valueStartB, Bool.or_eq_true, Bool.and_eq_true, decide_eq_true_eq,
      or_assoc]
    exact Or.inl ⟨h1, h2⟩

theorem intChars_last (i : Int) :
    ∃ e, (intChars i).getLast? = some e ∧ 48 ≤ e.toNat ∧ e.toNat ≤ 57 := by
  unfold intChars
  split
  · obtain ⟨d, tl, he, _, _⟩ := natChars_head (-i).toNat
    obtain ⟨e, hl, hb⟩ := natChars_last (-i).toNat
    refine ⟨e, ?_, hb⟩
    rw [he] at hl ⊢
    rw [List.getLast?_cons_cons]
    exact hl
  · exact natChars_last i.toNat

/-! ### Identity of each cleaning pass on comment-free printable input -/

theorem lstripBOM_id (t : List Char) (h : ∀ c ∈ t, emitOK c = true) :
    lstripBOM t = t := by
  cases t with
  | nil => rfl
  | cons c rest =>
    have hc := (emitOK_facts c (h c (List.mem_cons_self c rest))).2.2.1
    simp [lstripBOM, List.dropWhile_cons, hc]

theorem pyStrip_id (t : List Char) (d e : Char) (w : List Char) (ht : t = d :: w)
    (hd : pyIsSpace d = false) (hl : t.getLast? = some e)
    (he : pyIsSpace e = false) : pyStrip t = t := by
  have h1 : t.dropWhile pyIsSpace = t := by
    rw [ht]; simp [List.dropWhile_cons, hd]
  have h2 : t.reverse.head? = some e := by rw [List.head?_reverse]; exact hl
  obtain ⟨rt, hrt⟩ : ∃ rt, t.reverse = e :: rt := by
    cases hrev : t.reverse with
    | nil => rw [hrev] at h2; simp at h2
    | cons a rt =>
      rw [hrev] at h2
      simp at h2
      exact ⟨rt, by rw [h2]⟩
  unfold pyStrip
  rw [h1, hrt, List.dropWhile_cons, if_neg (by simp [he]), ← hrt,
    List.reverse_reverse]

theorem stripFenceStartAux_none (d : Char) (w : List Char)
    (hbt : d ≠ Char.ofNat 96) : stripFenceStartAux (d :: w) = none := by
  cases w with
  | nil => rfl
  | cons c2 w2 =>
    cases w2 with
    | nil => rfl
    | cons c3 w3 =>
      rw [stripFenceStartAux, if_neg]
      intro hconj
      exact hbt hconj.1

theorem stripFenceStart_id (t : List Char) (d : Char) (w : List Char)
    (ht : t = d :: w) (hd : pyIsSpace d = false) (hbt : d ≠ Char.ofNat 96) :
    stripFenceStart t = t := by
  have h1 : t.dropWhile pyIsSpace = t := by
    rw [ht]; simp [List.dropWhile_cons, hd]
  unfold stripFenceStart
  rw [h1, ht, stripFenceStartAux_none d w hbt]
  rfl

theorem fenceEndCore_false (u : List Char)
    (h : ∀ c ∈ u, c ≠ Char.ofNat 96) : fenceEndCore u = false := by
  cases u with
  | nil => rfl
  | cons c1 u1 =>
    cases u1 with
    | nil => rfl
    | cons c2 u2 =>
      cases u2 with
      | nil => rfl
      | cons c3 u3 =>
        have h1 : c1 ≠ Char.ofNat 96 := h c1 (by simp)
        simp [fenceEndCore, h1]

theorem matchFenceEnd_false (cs : List Char)
    (h : ∀ c ∈ cs, c ≠ Char.ofNat 96) : matchFenceEnd cs = false := by
  unfold matchFenceEnd
  refine fenceEndCore_false _ ?_
  intro c hc
  exact h c (List.Sublist.subset (List.dropWhile_sublist pyIsSpace) hc)

theorem stripFenceEnd_id (cs : List Char)
    (h : ∀ c ∈ cs, c ≠ Char.ofNat 96) : stripFenceEnd cs = cs := by
  induction cs with
  | nil => rfl
  | cons c rest ih =>
    have hm : matchFenceEnd (c :: rest) = false := matchFenceEnd_false _ h
    rw [stripFenceEnd, if_neg (by simp [hm]),
      ih fun d hd => h d (List.mem_cons_of_mem _ hd)]

theorem slc_mid_id (cs : List Char) (h : ∀ c ∈ cs, c ≠ '\n') :
    slc .mid cs = cs := by
  induction cs with
  | nil => rfl
  | cons c rest ih =>
    have hc : c ≠ '\n' := h c (List.mem_cons_self _ _)
    simp only [slc]
    rw [if_neg (by simp [hc]), ih fun d hd => h d (List.mem_cons_of_mem _ hd)]

theorem stripLineComments_id (t : List Char) (d : Char) (w : List Char)
    (ht : t = d :: w) (hd : pyIsSpace d = false) (hds : d ≠ '/')
    (hn : ∀ c ∈ t, c ≠ '\n') : stripLineComments t = t := by
  subst ht
  unfold stripLineComments
  simp only [slc]
  rw [if_neg (by simp [hd]), if_neg (by simp [hds]),
    slc_mid_id w fun c hc => hn c (List.mem_cons_of_mem _ hc)]
  simp

theorem sbc_false_id (cs : List Char) (h : ∀ c ∈ cs, c ≠ '*') :
    sbc false cs = cs := by
  induction cs with
  | nil => rfl
  | cons c rest ih =>
    have hstar : ∀ r2, rest ≠ '*' :: r2 := by
      intro r2 he
      have := h '*' (by rw [he]; simp)
      exact this rfl
    rw [sbc.eq_def]
    split
    · rename_i heq
      exact absurd heq (by simp)
    · rename_i heq
      exfalso
      injection heq with h1 h2
      exact hstar _ h2
    · rename_i heq
      injection heq with h1 h2
      subst h1
      subst h2
      rw [ih fun d hd => h d (List.mem_cons_of_mem _ hd)]
    · rename_i hft heq
      exact absurd hft (by simp)
    · rename_i hft heq
      exact absurd hft (by simp)

theorem stripBlockComments_id (cs : List Char) (h : ∀ c ∈ cs, c ≠ '*') :
    stripBlockComments cs = cs := sbc_false_id cs h

theorem stc_norm_cons_ne (c : Char) (rest : List Char) (h : c ≠ ',') :
    stc .norm (c :: rest) = c :: stc .norm rest := by
  rw [stc.eq_def]
  simp [h]

theorem stc_afterComma_val (d : Char) (pend rest : List Char)
    (hws : pyIsSpace d = false) (h1 : d ≠ ']') (h2 : d ≠ '}') (h3 : d ≠ ',') :
    stc (.afterComma pend) (d :: rest) =
      (',' :: pend.reverse) ++ d :: stc .norm rest := by
  rw [stc.eq_def]
  simp [hws, h1, h2, h3]

theorem stcId_nil : stcId [] := by
  intro v
  simp

theorem stcId_cons (c : Char) (w : List Char) (hc : c ≠ ',') (hw : stcId w) :
    stcId (c :: w) := by
  intro v
  rw [List.cons_append, stc_norm_cons_ne c _ hc, hw v, List.cons_append]

theorem stcId_append (a b : List Char) (ha : stcId a) (hb : stcId b) :
    stcId (a ++ b) := by
  intro v
  rw [List.append_assoc, ha (b ++ v), hb v, ← List.append_assoc]

theorem stcId_no_comma (t : List Char) (h : ∀ c ∈ t, c ≠ ',') : stcId t := by
  induction t with
  | nil => exact stcId_nil
  | cons c w ih =>
    exact stcId_cons c w (h c (List.mem_cons_self c w))
      (ih fun d hd => h d (List.mem_cons_of_mem c hd))

theorem stcId_cons_elim (c : Char) (w : List Char) (hc : c ≠ ',')
    (h : stcId (c :: w)) : stcId w := by
  intro v
  have h1 := h v
  rw [List.cons_append, stc_norm_cons_ne c _ hc, List.cons_append] at h1
  injection h1

theorem stcId_sep (d : Char) (w : List Char) (hws : pyIsSpace d = false)
    (h1 : d ≠ ']') (h2 : d ≠ '}') (h3 : d ≠ ',') (hw : stcId w) :
    stcId (',' :: ' ' :: d :: w) := by
  intro v
  have e1 : stc .norm ((',' :: ' ' :: d :: w) ++ v) =
      stc (.afterComma [' ']) (d :: (w ++ v)) := rfl
  rw [e1, stc_afterComma_val d [' '] _ hws h1 h2 h3, hw v]
  simp

theorem stripTrailingCommas_id (t : List Char) (h : stcId t) :
    stripTrailingCommas t = t := by
  have h0 := h []
  rw [List.append_nil] at h0
  unfold stripTrailingCommas
  rw [h0]
  simp [show stc .norm [] = [] from rfl]

theorem rmBadBackslashes_id (cs : List Char) (h : ∀ c ∈ cs, c ≠ '\\') :
    rmBadBackslashes cs = cs := by
  induction cs with
  | nil => rfl
  | cons c rest ih =>
    have hc : c ≠ '\\' := h c (List.mem_cons_self _ _)
    rw [rmBadBackslashes.eq_def]
    split <;> simp_all

theorem normalizeCRLF_id (cs : List Char) (h : ∀ c ∈ cs, c ≠ '\r') :
    normalizeCRLF cs = cs := by
  induction cs with
  | nil => rfl
  | cons c rest ih =>
    have hc : c ≠ '\r' := h c (List.mem_cons_self _ _)
    rw [normalizeCRLF.eq_def]
    split <;> simp_all

/-! ### Serializer facts -/

theorem band_elim {a b : Bool} (h : (a && b) = true) : a = true ∧ b = true := by
  simp at h
  exact h

theorem escapeChar_good (c : Char) (h : goodChar c = true) : escapeChar c = [c] := by
  have hq : c ≠ '"' := fun he => absurd (he ▸ h) (by decide)
  have hb : c ≠ '\\' := fun he => absurd (he ▸ h) (by decide)
  have hn : c ≠ '\n' := fun he => absurd (he ▸ h) (by decide)
  have hr : c ≠ '\r' := fun he => absurd (he ▸ h) (by decide)
  have ht : c ≠ '\t' := fun he => absurd (he ▸ h) (by decide)
  have h8 : c ≠ '\x08' := fun he => absurd (he ▸ h) (by decide)
  have hf : c ≠ '\x0c' := fun he => absurd (he ▸ h) (by decide)
  have hbound : 0x20 ≤ c.toNat ∧ c.toNat ≤ 0x7e := by
    simp [goodChar] at h
    exact h.1
  simp only [escapeChar]
  rw [if_neg hq, if_neg hb, if_neg hn, if_neg hr, if_neg ht, if_neg h8,
    if_neg hf, if_pos hbound]

theorem escapeChars_id (cs : List Char) (h : ∀ c ∈ cs, goodChar c = true) :
    escapeChars cs = cs := by
  induction cs with
  | nil => rfl
  | cons c rest ih =>
    simp only [escapeChars]
    rw [escapeChar_good c (h c (List.mem_cons_self _ _)),
      ih fun d hd => h d (List.mem_cons_of_mem _ hd)]
    rfl

theorem emit_dumpStr (s : String) (hall : ∀ a ∈ s.toList, goodChar a = true) :
    ∀ c ∈ dumpStr s, emitOK c = true := by
  intro c hc
  rw [show dumpStr s = '"' :: (escapeChars s.toList ++ ['"']) from rfl,
    escapeChars_id s.toList hall] at hc
  rcases List.mem_cons.mp hc with rfl | hc
  · decide
  rcases List.mem_append.mp hc with hc | hc
  · exact goodChar_emitOK c (hall c hc)
  · simp at hc
    subst hc
    decide

theorem dumpStr_ne_comma (s : String) (hall : ∀ a ∈ s.toList, goodChar a = true) :
    ∀ c ∈ dumpStr s, c ≠ ',' := by
  intro c hc
  rw [show dumpStr s = '"' :: (escapeChars s.toList ++ ['"']) from rfl,
    escapeChars_id s.toList hall] at hc
  rcases List.mem_cons.mp hc with rfl | hc
  · decide
  rcases List.mem_append.mp hc with hc | hc
  · exact goodChar_ne_comma c (hall c hc)
  · simp at hc
    subst hc
    decide

theorem dumps_head (x : Json) :
    ∃ d w, dumpsJson x = d :: w ∧ valueStartB d = true := by
  cases x with
  | null => exact ⟨'n', _, rfl, by decide⟩
  | bool b =>
    cases b with
    | false => exact ⟨'f', _, rfl, by decide⟩
    | true => exact ⟨'t', _, rfl, by decide⟩
  | num n => exact intChars_head n
  | str s => exact ⟨'"', _, rfl, by decide⟩
  | arr xs =>
    cases xs with
    | nil => exact ⟨'[', _, rfl, by decide⟩
    | cons y ys => exact ⟨'[', _, rfl, by decide⟩
  | obj kvs =>
    cases kvs with
    | nil => exact ⟨'{', _, rfl, by decide⟩
    | cons kv kvs =>
      obtain ⟨k, v⟩ := kv
      exact ⟨'{', _, rfl, by decide⟩

theorem dumps_last (x : Json) :
    ∃ e, (dumpsJson x).getLast? = some e ∧ valueEndB e = true := by
  cases x with
  | null => exact ⟨'l', rfl, by decide⟩
  | bool b => cases b with
    | false => exact ⟨'e', rfl, by decide⟩
    | true => exact ⟨'e', rfl, by decide⟩
  | num n =>
    obtain ⟨e, hl, h1, h2⟩ := intChars_last n
    refine ⟨e, hl, ?_⟩
    simp only [valueEndB, Bool.or_eq_true, Bool.and_eq_true, decide_eq_true_eq,
      or_assoc]
    exact Or.inl ⟨h1, h2⟩
  | str s =>
    refine ⟨'"', ?_, by decide⟩
    rw [show dumpsJson (.str s) = ('"' :: escapeChars s.toList) ++ ['"'] from by
      simp [dumpsJson, dumpStr]]
    exact List.getLast?_concat _
  | arr xs =>
    cases xs with
    | nil => exact ⟨']', rfl, by decide⟩
    | cons y ys =>
      refine ⟨']', ?_, by decide⟩
      rw [show dumpsJson (.arr (y :: ys)) =
          ('[' :: (dumpsJson y ++ dumpsArr ys)) ++ [']'] from by
        simp [dumpsJson]]
      exact List.getLast?_concat _
  | obj kvs =>
    cases kvs with
    | nil => exact ⟨'}', rfl, by decide⟩
    | cons kv kvs =>
      obtain ⟨k, v⟩ := kv
      refine ⟨'}', ?_, by decide⟩
      rw [show dumpsJson (.obj ((k, v) :: kvs)) =
          ('{' :: (dumpStr k ++ ':' :: ' ' :: (dumpsJson v ++ dumpsObj kvs))) ++
            ['}'] from by simp [dumpsJson]]
      exact List.getLast?_concat _

mutual
theorem emit_dumps (x : Json) (hg : goodJson x = true) :
    ∀ c ∈ dumpsJson x, emitOK c = true := by
  cases x with
  | null =>
    intro c hc
    simp [dumpsJson] at hc
    rcases hc with rfl | rfl | rfl <;> decide
  | bool b =>
    intro c hc
    cases b <;> simp [dumpsJson] at hc
    · rcases hc with rfl | rfl | rfl | rfl | rfl <;> decide
    · rcases hc with rfl | rfl | rfl | rfl <;> decide
  | num n =>
    intro c hc
    rcases intChars_mem n c hc with rfl | hb
    · decide
    · rw [show emitOK c = ((0x20 ≤ c.toNat && c.toNat ≤ 0x7e) &&
        !(c = '*' || c = '\\' || c = Char.ofNat 96)) from rfl]
      have h1 : c ≠ '*' := digit_ne c '*' hb.1 hb.2 (by decide)
      have h2 : c ≠ '\\' := digit_ne c '\\' hb.1 hb.2 (by decide)
      have h3 : c ≠ Char.ofNat 96 := digit_ne c (Char.ofNat 96) hb.1 hb.2 (by decide)
      simp [h1, h2, h3]
      omega
  | str s =>
    have hall : ∀ a ∈ s.toList, goodChar a = true := by
      have hg' : s.toList.all goodChar = true := hg
      exact fun a ha => List.all_eq_true.mp hg' a ha
    exact emit_dumpStr s hall
  | arr xs =>
    cases xs with
    | nil =>
      intro c hc
      simp [dumpsJson] at hc
      rcases hc with rfl | rfl <;> decide
    | cons y ys =>
      intro c hc
      have hg2 : (goodJson y && goodArr ys) = true := hg
      rw [show dumpsJson (.arr (y :: ys)) =
          '[' :: (dumpsJson y ++ (dumpsArr ys ++ [']'])) from rfl] at hc
      rcases List.mem_cons.mp hc with rfl | hc
      · decide
      rcases List.mem_append.mp hc with hc | hc
      · exact emit_dumps y (band_elim hg2).1 c hc
      rcases List.mem_append.mp hc with hc | hc
      · exact emit_dumpsArr ys (band_elim hg2).2 c hc
      · simp at hc
        subst hc
        decide
  | obj kvs =>
    cases kvs with
    | nil =>
      intro c hc
      simp [dumpsJson] at hc
      rcases hc with rfl | rfl <;> decide
    | cons kv kvs =>
      obtain ⟨k, v⟩ := kv
      intro c hc
      have hg2 : ((k.toList.all goodChar && goodJson v) && goodKVs kvs) = true := hg
      have hk : ∀ a ∈ k.toList, goodChar a = true :=
        fun a ha => List.all_eq_true.mp
          (band_elim (band_elim hg2).1).1 a ha
      rw [show dumpsJson (.obj ((k, v) :: kvs)) =
          '{' :: (dumpStr k ++ ':' :: ' ' :: (dumpsJson v ++
            (dumpsObj kvs ++ ['}']))) from rfl] at hc
      rcases List.mem_cons.mp hc with rfl | hc
      · decide
      rcases List.mem_append.mp hc with hc | hc
      · exact emit_dumpStr k hk c hc
      rcases List.mem_cons.mp hc with rfl | hc
      · decide
      rcases List.mem_cons.mp hc with rfl | hc
      · decide
      rcases List.mem_append.mp hc with hc | hc
      · exact emit_dumps v (band_elim (band_elim hg2).1).2 c hc
      rcases List.mem_append.mp hc with hc | hc
      · exact emit_dumpsObj kvs (band_elim hg2).2 c hc
      · simp at hc
        subst hc
        decide

theorem emit_dumpsArr (xs : List Json) (hg : goodArr xs = true) :
    ∀ c ∈ dumpsArr xs, emitOK c = true := by
  cases xs with
  | nil =>
    intro c hc
    simp [dumpsArr] at hc
  | cons y ys =>
    intro c hc
    have hg2 : (goodJson y && goodArr ys) = true := hg
    rw [show dumpsArr (y :: ys) = ',' :: ' ' :: (dumpsJson y ++ dumpsArr ys)
      from rfl] at hc
    rcases List.mem_cons.mp hc with rfl | hc
    · decide
    rcases List.mem_cons.mp hc with rfl | hc
    · decide
    rcases List.mem_append.mp hc with hc | hc
    · exact emit_dumps y (band_elim hg2).1 c hc
    · exact emit_dumpsArr ys (band_elim hg2).2 c hc

theorem emit_dumpsObj (kvs : List (String × Json)) (hg : goodKVs kvs = true) :
    ∀ c ∈ dumpsObj kvs, emitOK c = true := by
  cases kvs with
  | nil =>
    intro c hc
    simp [dumpsObj] at hc
  | cons kv kvs =>
    obtain ⟨k, v⟩ := kv
    intro c hc
    have hg2 : ((k.toList.all goodChar && goodJson v) && goodKVs kvs) = true := hg
    have hk : ∀ a ∈ k.toList, goodChar a = true :=
      fun a ha => List.all_eq_true.mp
        (band_elim (band_elim hg2).1).1 a ha
    rw [show dumpsObj ((k, v) :: kvs) =
        ',' :: ' ' :: (dumpStr k ++ ':' :: ' ' :: (dumpsJson v ++ dumpsObj kvs))
      from rfl] at hc
    rcases List.mem_cons.mp hc with rfl | hc
    · decide
    rcases List.mem_cons.mp hc with rfl | hc
    · decide
    rcases List.mem_append.mp hc with hc | hc
    · exact emit_dumpStr k hk c hc
    rcases List.mem_cons.mp hc with rfl | hc
    · decide
    rcases List.mem_cons.mp hc with rfl | hc
    · decide
    rcases List.mem_append.mp hc with hc | hc
    · exact emit_dumps v (band_elim (band_elim hg2).1).2 c hc
    · exact emit_dumpsObj kvs (band_elim hg2).2 c hc
end

mutual
theorem stcId_dumps (x : Json) (hg : goodJson x = true) :
    stcId (dumpsJson x) := by
  cases x with
  | null => exact stcId_no_comma _ (by decide)
  | bool b => cases b <;> exact stcId_no_comma _ (by decide)
  | num n =>
    refine stcId_no_comma _ ?_
    intro c hc
    rcases intChars_mem n c hc with rfl | hb
    · decide
    · exact digit_ne c ',' hb.1 hb.2 (by decide)
  | str s =>
    have hall : ∀ a ∈ s.toList, goodChar a = true := by
      have hg' : s.toList.all goodChar = true := hg
      exact fun a ha => List.all_eq_true.mp hg' a ha
    exact stcId_no_comma _ (dumpStr_ne_comma s hall)
  | arr xs =>
    cases xs with
    | nil => exact stcId_no_comma _ (by decide)
    | cons y ys =>
      have hg2 : (goodJson y && goodArr ys) = true := hg
      have h1 := stcId_dumps y (band_elim hg2).1
      have h2 := stcId_dumpsArr ys (band_elim hg2).2
      rw [show dumpsJson (.arr (y :: ys)) =
          '[' :: (dumpsJson y ++ (dumpsArr ys ++ [']'])) from rfl]
      exact stcId_cons _ _ (by decide)
        (stcId_append _ _ h1 (stcId_append _ _ h2 (stcId_no_comma _ (by decide))))
  | obj kvs =>
    cases kvs with
    | nil => exact stcId_no_comma _ (by decide)
    | cons kv kvs =>
      obtain ⟨k, v⟩ := kv
      have hg2 : ((k.toList.all goodChar && goodJson v) && goodKVs kvs) = true := hg
      have hk : ∀ a ∈ k.toList, goodChar a = true :=
        fun a ha => List.all_eq_true.mp
          (band_elim (band_elim hg2).1).1 a ha
      have hv := stcId_dumps v (band_elim (band_elim hg2).1).2
      have hkvs := stcId_dumpsObj kvs (band_elim hg2).2
      rw [show dumpsJson (.obj ((k, v) :: kvs)) =
          '{' :: (dumpStr k ++ ':' :: ' ' :: (dumpsJson v ++
            (dumpsObj kvs ++ ['}']))) from rfl]
      refine stcId_cons _ _ (by decide) ?_
      refine stcId_append _ _ (stcId_no_comma _ (dumpStr_ne_comma k hk)) ?_
      refine stcId_cons _ _ (by decide) ?_
      refine stcId_cons _ _ (by decide) ?_
      exact stcId_append _ _ hv (stcId_append _ _ hkvs (stcId_no_comma _ (by decide)))

theorem stcId_dumpsArr (xs : List Json) (hg : goodArr xs = true) :
    stcId (dumpsArr xs) := by
  cases xs with
  | nil => exact stcId_nil
  | cons y ys =>
    have hg2 : (goodJson y && goodArr ys) = true := hg
    obtain ⟨d, w, he, hv⟩ := dumps_head y
    obtain ⟨hws, _, _, hrb, hcb, hcm⟩ := valueStartB_facts d hv
    have hy := stcId_dumps y (band_elim hg2).1
    have hys := stcId_dumpsArr ys (band_elim hg2).2
    have hw : stcId w := stcId_cons_elim d w hcm (he ▸ hy)
    rw [show dumpsArr (y :: ys) = ',' :: ' ' :: (dumpsJson y ++ dumpsArr ys)
      from rfl, he, List.cons_append]
    exact stcId_sep d _ hws hrb hcb hcm (stcId_append _ _ hw hys)

theorem stcId_dumpsObj (kvs : List (String × Json)) (hg : goodKVs kvs = true) :
    stcId (dumpsObj kvs) := by
  cases kvs with
  | nil => exact stcId_nil
  | cons kv kvs =>
    obtain ⟨k, v⟩ := kv
    have hg2 : ((k.toList.all goodChar && goodJson v) && goodKVs kvs) = true := hg
    have hk : ∀ a ∈ k.toList, goodChar a = true :=
      fun a ha => List.all_eq_true.mp
        (band_elim (band_elim hg2).1).1 a ha
    have hv := stcId_dumps v (band_elim (band_elim hg2).1).2
    have hkvs := stcId_dumpsObj kvs (band_elim hg2).2
    rw [show dumpsObj ((k, v) :: kvs) =
        ',' :: ' ' :: (dumpStr k ++ ':' :: ' ' :: (dumpsJson v ++ dumpsObj kvs))
      from rfl,
      show dumpStr k = '"' :: (escapeChars k.toList ++ ['"']) from rfl,
      List.cons_append]
    refine stcId_sep '"' _ (by decide) (by decide) (by decide) (by decide) ?_
    refine stcId_append _ _ ?_ ?_
    · refine stcId_no_comma _ ?_
      intro c hc
      rw [escapeChars_id k.toList hk] at hc
      rcases List.mem_append.mp hc with hc | hc
      · exact goodChar_ne_comma c (hk c hc)
      · simp at hc
        subst hc
        decide
    · refine stcId_cons _ _ (by decide) ?_
      refine stcId_cons _ _ (by decide) ?_
      exact stcId_append _ _ hv hkvs
end

/-! ### Markdown-escape scanner facts -/

theorem smeGo_replicate (k p : Nat) (cs : List Char) :
    smeGo p (List.replicate k '\\' ++ cs) = smeGo (p + k) cs := by
  induction k generalizing p with
  | zero => simp
  | succ m ih =>
    rw [List.replicate_succ, List.cons_append,
      show ∀ rest, smeGo p ('\\' :: rest) = smeGo (p + 1) rest from fun _ => rfl,
      ih (p + 1), show p + 1 + m = p + (m + 1) from by omega]

theorem smeGo_cons_resolve (p : Nat) (c : Char) (rest : List Char)
    (hc : c ≠ '\\') :
    smeGo p (c :: rest) =
      if p = 0 then c :: smeGo 0 rest
      else if mdPunct c then c :: smeGo 0 rest
      else List.replicate p '\\' ++ c :: smeGo 0 rest := by
  rw [smeGo.eq_def]
  split <;> simp_all

/-! ### Claims C3 and C10 -/

/-- C3 (counterexample): lenient cleanup is not a no-op on already-valid
JSON.  The serialized form of the string value `/*a*/` is the perfectly
valid JSON text `"/*a*/"` (it parses back to the original value), yet the
cleaner's block-comment pass fires inside the string literal and the cleaned
text parses to the empty string instead. -/
theorem clean_lenient_corrupts_valid_json :
    parseJson (String.mk (dumpsJson (Json.str "/*a*/"))) =
      some (Json.str "/*a*/") ∧
    parseJson (cleanJsonLenient (String.mk (dumpsJson (Json.str "/*a*/")))) =
      some (Json.str "") ∧
    ("" : String) ≠ "/*a*/" :=
  ⟨rfl, rfl, by decide⟩

/-- C3 (amended): lenient cleanup is a no-op on serialized JSON provided
every string (and key) of the value consists of printable ASCII characters
other than quote, backslash, asterisk, comma and backtick; on such input
`clean_json_lenient` returns its argument verbatim.  In general the claim
fails: string contents can collide with the comment, trailing-comma and
backslash patterns, which operate on raw text with no notion of string
literals. -/
theorem clean_lenient_noop_on_serialized_good_json (x : Json)
    (hg : goodJson x = true) :
    cleanJsonLenient (String.mk (dumpsJson x)) = String.mk (dumpsJson x) := by
  have hE : ∀ c ∈ dumpsJson x, emitOK c = true := emit_dumps x hg
  obtain ⟨d, w, hhead, hvs⟩ := dumps_head x
  obtain ⟨e, hlast, hve⟩ := dumps_last x
  have hS : stcId (dumpsJson x) := stcId_dumps x hg
  obtain ⟨hws, hslash, hbt, _, _, _⟩ := valueStartB_facts d hvs
  have hwse := valueEndB_facts e hve
  have h1 : (String.mk (dumpsJson x)).toList = dumpsJson x := rfl
  unfold cleanJsonLenient
  rw [h1, lstripBOM_id _ hE,
    pyStrip_id _ d e w hhead hws hlast hwse,
    stripFenceStart_id _ d w hhead hws hbt,
    stripFenceEnd_id _ (fun c hc => (emitOK_facts c (hE c hc)).2.2.2.2.2),
    stripLineComments_id _ d w hhead hws hslash
      (fun c hc => (emitOK_facts c (hE c hc)).1),
    stripBlockComments_id _ (fun c hc => (emitOK_facts c (hE c hc)).2.2.2.1),
    stripTrailingCommas_id _ hS,
    rmBadBackslashes_id _ (fun c hc => (emitOK_facts c (hE c hc)).2.2.2.2.1),
    normalizeCRLF_id _ (fun c hc => (emitOK_facts c (hE c hc)).2.1)]

/-- Witness: a concrete object with two keys, a number, an array, a string
and null, on which the cleaner provably does nothing. -/
theorem clean_lenient_noop_on_serialized_good_json_witness :
    goodJson (Json.obj [("a", Json.num 1),
      ("b", Json.arr [Json.str "hi", Json.null])]) = true ∧
    cleanJsonLenient (String.mk (dumpsJson (Json.obj [("a", Json.num 1),
        ("b", Json.arr [Json.str "hi", Json.null])]))) =
      String.mk (dumpsJson (Json.obj [("a", Json.num 1),
        ("b", Json.arr [Json.str "hi", Json.null])])) :=
  ⟨rfl, clean_lenient_noop_on_serialized_good_json _ rfl⟩

/-- C10 (counterexample): the entry point does sanitize title strings, but
the punctuation set of `_strip_md_escapes` omits `*`: a backslash before an
asterisk survives normalization even though a backslash before `&` is
removed. -/
theorem md_escape_star_not_stripped :
    preparePowerbb (Json.obj [("title", Json.str "a\\*b")]) true =
      Json.obj [("title", Json.str "a\\*b")] ∧
    preparePowerbb (Json.obj [("title", Json.str "a\\&b")]) true =
      Json.obj [("title", Json.str "a&b")] ∧
    mdPunct '*' = false ∧ mdPunct '&' = true :=
  ⟨rfl, rfl, rfl, rfl⟩

/-- C10 (amended): under the keys of `TEXT_KEYS` the build entry point
removes every run of one or more backslashes that immediately precedes a
character of the fixed punctuation set `mdPunct` (which omits `*`); runs
before any other character (letters, digits, `*`, a backslash at the end)
are kept verbatim; string values under other keys are not rewritten; and
the sanitization is exactly `_normalize_powerbb_strings` (the entry point
always calls it).  Concretely `V\&V` becomes `V&V`, `AI\_SE` becomes
`AI_SE`, and `C:\temp\file` is unchanged. -/
theorem md_escape_semantics :
    (∀ (k : Nat) (c : Char) (rest : List Char), 1 ≤ k → mdPunct c = true →
        smeGo 0 (List.replicate k '\\' ++ c :: rest) = c :: smeGo 0 rest) ∧
    (∀ (k : Nat) (c : Char) (rest : List Char), mdPunct c = false →
        c ≠ '\\' →
        smeGo 0 (List.replicate k '\\' ++ c :: rest) =
          List.replicate k '\\' ++ c :: smeGo 0 rest) ∧
    (∀ (k v : String) (kvs : List (String × Json)),
        TEXT_KEYS.contains k = true →
        normKVs ((k, Json.str v) :: kvs) =
          (k, Json.str (stripMdEscapes v)) :: normKVs kvs) ∧
    (∀ (k v : String) (kvs : List (String × Json)),
        TEXT_KEYS.contains k = false →
        normKVs ((k, Json.str v) :: kvs) = (k, Json.str v) :: normKVs kvs) ∧
    (∀ pb, preparePowerbb pb true = normalizePowerbbStrings pb) ∧
    stripMdEscapes "V\\&V" = "V&V" ∧ stripMdEscapes "AI\\_SE" = "AI_SE" ∧
    stripMdEscapes "C:\\temp\\file" = "C:\\temp\\file" := by
  refine ⟨?_, ?_, ?_, ?_, fun pb => rfl, rfl, rfl, rfl⟩
  · intro k c rest hk hp
    have hc : c ≠ '\\' := fun he => by
      rw [he] at hp
      exact absurd hp (by decide)
    rw [smeGo_replicate k 0 (c :: rest), Nat.zero_add,
      smeGo_cons_resolve k c rest hc, if_neg (by omega), if_pos hp]
  · intro k c rest hp hc
    rw [smeGo_replicate k 0 (c :: rest), Nat.zero_add,
      smeGo_cons_resolve k c rest hc]
    by_cases hk : k = 0
    · subst hk
      simp
    · rw [if_neg hk, if_neg (by simp [hp])]
  · intro k v kvs hk
    simp [normKVs, hk]
    intro hnot
    exact absurd (by simpa using hk) hnot
  · intro k v kvs hk
    simp [normKVs, hk]
    rw [if_neg (by simpa using hk)]
    rfl

/-- Witness: the three quantified parts of the markdown-escape theorem
applied at concrete inputs. -/
theorem md_escape_semantics_witness :
    ((1 : Nat) ≤ 1 ∧ mdPunct '&' = true ∧
      smeGo 0 (List.replicate 1 '\\' ++ '&' :: ['V']) = '&' :: smeGo 0 ['V']) ∧
    (mdPunct 't' = false ∧ 't' ≠ '\\' ∧
      smeGo 0 (List.replicate 1 '\\' ++ 't' :: []) =
        List.replicate 1 '\\' ++ 't' :: smeGo 0 []) ∧
    (TEXT_KEYS.contains "title" = true ∧
      normKVs [("title", Json.str "V\\&V")] =
        [("title", Json.str (stripMdEscapes "V\\&V"))]) :=
  ⟨⟨by decide, by decide,
      md_escape_semantics.1 1 '&' ['V'] (by decide) (by decide)⟩,
   ⟨by decide, by decide,
      md_escape_semantics.2.1 1 't' [] (by decide) (by decide)⟩,
   ⟨by decide,
      by simpa using md_escape_semantics.2.2.1 "title" "V\\&V" [] (by decide)⟩⟩

end PowerBB
